import Mathlib

set_option maxRecDepth 40000

/-!
Verification of the pyCAT bias-correction core (`pycat/esd/methods.py`,
`pycat/esd/utils.py`) against its natural-language specification.

The numerical code is shallowly embedded over `ℚ`: vectorized numpy
operations become `List ℚ` operations, and the scipy distribution
routines (`gamma.fit/cdf/ppf`, `norm.fit/cdf/ppf`) are abstracted as
oracle structures, since the claims under verification are structural
properties that hold for any values those fits return.  Grid-level
iteration with numpy masked arrays is embedded with explicit cell lists
and an `Except` monad for the numpy `ValueError` raised by truthiness
tests on multi-element arrays.
-/

namespace PyCat

/-- Arithmetic mean of a list of rationals (`np.mean`); `0` for the
empty list (division by zero in `ℚ` yields `0`). -/
def qmean (l : List ℚ) : ℚ := l.sum / l.length

/-- Ascending sort of a rational list (`np.sort`). -/
def sortQ (l : List ℚ) : List ℚ := l.mergeSort (fun a b => a ≤ b)

/-- Clip values above a threshold: `v[v > t] = t` (relative SDM,
`methods.py` lines 150-151 and 171). -/
def clipAbove (t : ℚ) (l : List ℚ) : List ℚ := l.map (fun c => min c t)

/-- Two-sided clip `np.maximum(np.minimum(v, t), 1 - t)` (absolute SDM,
`methods.py` lines 275-278, 292-293, 319-320). -/
def clipBoth (t : ℚ) (l : List ℚ) : List ℚ := l.map (fun c => max (min c t) (1 - t))

/-- Model of `np.linspace a b m` with the endpoint included; `[a]` for `m = 1`. -/
def linspaceQ (a b : ℚ) (m : ℕ) : List ℚ :=
  (List.range m).map (fun (i : ℕ) =>
    if m = 1 then a else a + (b - a) * (i : ℚ) / ((m : ℚ) - 1))

/-- Linear interpolation `np.interp q xp fp` for the integer grid
`xp = [1, 2, ..., fp.length]` (the only grids the source uses, since
`np.linspace(1, n, n)` is that grid).  Queries are clamped to the
endpoints exactly as `np.interp` does. -/
def interpAt (fp : List ℚ) (q : ℚ) : ℚ :=
  if fp.length = 0 then 0
  else if q ≤ 1 then fp.getD 0 0
  else if (fp.length : ℚ) ≤ q then fp.getD (fp.length - 1) 0
  else
    let j : ℕ := (⌊q⌋).toNat
    let frac : ℚ := q - (j : ℚ)
    (1 - frac) * fp.getD (j - 1) 0 + frac * fp.getD j 0

/-- Rank interpolation of a vector to a new length:
`np.interp(np.linspace(1, len fp, m), np.linspace(1, len fp, len fp), fp)`
(`methods.py` lines 175-184, 201-205, 297-306). -/
def interpToLen (fp : List ℚ) (m : ℕ) : List ℚ :=
  (linspaceQ 1 (fp.length : ℚ) m).map (interpAt fp)

/-- Model of `np.percentile a p`: linear interpolation of the sorted sample at
fractional rank `p/100 * (n-1)` (0-based), i.e. query `p/100*(n-1) + 1`
on the 1-based integer grid. -/
def percentileQ (a : List ℚ) (p : ℚ) : ℚ :=
  interpAt (sortQ a) (p * ((a.length : ℚ) - 1) / 100 + 1)

/-- Empirical CDF of a sample evaluated at `x`
(`statsmodels.distributions.empirical_distribution.ECDF`, right side):
the fraction of sample points `≤ x`. -/
def ecdfQ (sample : List ℚ) (x : ℚ) : ℚ :=
  (sample.countP (fun s => decide (s ≤ x)) : ℚ) / (sample.length : ℚ)

/-- Additive quantile-mapping correction for one scenario sample
(`methods.py` lines 73-75): percentile rank of `x` under the model ECDF
on a 0-100 scale, then `percentile(obs, p) - percentile(mod, p)`. -/
def qmCorrection (obs mo : List ℚ) (x : ℚ) : ℚ :=
  percentileQ obs (ecdfQ mo x * 100) - percentileQ mo (ecdfQ mo x * 100)

/-- Quantile mapping of one grid cell (`methods.py` lines 67-76): each
scenario sample is incremented in place by its correction. -/
def quantileMappingCell (obs mo sce : List ℚ) : List ℚ :=
  sce.map (fun x => x + qmCorrection obs mo x)

/-- Stable argsort of a rational list (`np.argsort`): the indices
`0..n-1` reordered so that the values they select are ascending. -/
def argsortQ (l : List ℚ) : List ℕ :=
  (List.range l.length).mergeSort
    (fun i j => decide (l.getD i 0 < l.getD j 0 ∨ (l.getD i 0 = l.getD j 0 ∧ i ≤ j)))

/-- Scattered assignment `out = np.zeros n; out[idxs] = vals` for
distinct in-range indices (`methods.py` lines 199-211, 328-329). -/
def scatterZeros (n : ℕ) : List ℕ → List ℚ → List ℚ
  | [], _ => List.replicate n 0
  | _ :: _, [] => List.replicate n 0
  | i :: is, v :: vs => (scatterZeros n is vs).set i v

/-- Regressor grid of `scipy.signal.detrend`: `x_i = (i+1)/n`. -/
def xGrid (n : ℕ) : List ℚ :=
  (List.range n).map (fun (i : ℕ) => ((i : ℚ) + 1) / (n : ℚ))

/-- Linear least-squares detrend (`scipy.signal.detrend` with
`type='linear'`): fit `y = a + b*x` with `x_i = (i+1)/n` as scipy does,
and return the residuals. -/
def detrendQ (ys : List ℚ) : List ℚ :=
  let n := ys.length
  let xs := xGrid n
  let sx := xs.sum
  let sy := ys.sum
  let sxx := (xs.map (fun x => x * x)).sum
  let sxy := ((xs.zip ys).map (fun p => p.1 * p.2)).sum
  let b := ((n : ℚ) * sxy - sx * sy) / ((n : ℚ) * sxx - sx * sx)
  let a := (sy - b * sx) / (n : ℚ)
  (xs.zip ys).map (fun p => p.2 - (a + b * p.1))

/-- Abstract interface for `scipy.stats.norm`: a fit returning
`(loc, scale)` parameters, plus the cdf and the quantile function.  The
claims proved below hold for every such oracle, in particular for the
real normal distribution. -/
structure NormOracle where
  fit : List ℚ → ℚ × ℚ
  cdf : ℚ × ℚ → ℚ → ℚ
  ppf : ℚ × ℚ → ℚ → ℚ

/-- Clipped sorted-sample CDF of a detrended series under its own
normal fit (`methods.py` lines 267-278 and 286-293). -/
def normCdfSorted (g : NormOracle) (t : ℚ) (data : List ℚ) : List ℚ :=
  clipBoth t ((sortQ (detrendQ data)).map (g.cdf (g.fit (detrendQ data))))

/-- Elementwise inverse-spread adaptation of the three CDF vectors
(`methods.py` lines 310-318): shift by 1/2, combine the inverse spreads,
and wrap negative results by adding 1. -/
def absAdaptedRaw (oc mc sc : List ℚ) : List ℚ :=
  (oc.zip (mc.zip sc)).map (fun p =>
    let o := p.1 - 1/2
    let m := p.2.1 - 1/2
    let s := p.2.2 - 1/2
    let oi := 1 / (1/2 - |o|)
    let mi := 1 / (1/2 - |m|)
    let si := 1 / (1/2 - |s|)
    let sgn : ℚ := if 0 < o then 1 else if o < 0 then -1 else 0
    let ad := sgn * (1 - 1 / (oi * si / mi))
    if ad < 0 then ad + 1 else ad)

/-- Adapted CDF of one scenario cell in absolute SDM, after the final
re-clip (`methods.py` lines 297-320). -/
def absAdaptedCdf (g : NormOracle) (t : ℚ) (obs mo sce : List ℚ) : List ℚ :=
  clipBoth t (absAdaptedRaw
    (interpToLen (normCdfSorted g t obs) sce.length)
    (interpToLen (normCdfSorted g t mo) sce.length)
    (normCdfSorted g t sce))

/-- Recovered values before re-centering (`methods.py` lines 322-324):
obs-quantile of the sorted adapted CDF plus the scaled difference of
scenario and model quantiles at the scenario's own CDF. -/
def absXvalsRaw (g : NormOracle) (t : ℚ) (obs mo sce : List ℚ) : List ℚ :=
  let obs_norm := g.fit (detrendQ obs)
  let mod_norm := g.fit (detrendQ mo)
  let sce_norm := g.fit (detrendQ sce)
  ((sortQ (absAdaptedCdf g t obs mo sce)).zip (normCdfSorted g t sce)).map
    (fun p => g.ppf obs_norm p.1 +
      obs_norm.2 / mod_norm.2 * (g.ppf sce_norm p.2 - g.ppf mod_norm p.2))

/-- Recovered values re-centered to zero mean and shifted by
`obs_mean + (sce_mean - mod_mean)` (`methods.py` lines 325-326). -/
def absXvals (g : NormOracle) (t : ℚ) (obs mo sce : List ℚ) : List ℚ :=
  let raw := absXvalsRaw g t obs mo sce
  (raw.map (fun v => v - qmean raw)).map
    (fun v => v + (qmean obs + (qmean sce - qmean mo)))

/-- Absolute scaled distribution mapping of one scenario cell
(`methods.py` lines 257-331): scatter the recovered values back to the
original rank positions of the detrended scenario and add back the
removed trend component minus the scenario mean. -/
def absolute_sdm_cell (g : NormOracle) (t : ℚ) (obs mo sce : List ℚ) : List ℚ :=
  let sce_detrended := detrendQ sce
  let sce_diff := (sce.zip sce_detrended).map (fun p => p.1 - p.2)
  let correction := scatterZeros sce.length (argsortQ sce_detrended)
    (absXvals g t obs mo sce)
  (correction.zip sce_diff).map (fun p => p.1 + (p.2 - qmean sce))

/-- Concrete normal-distribution oracle used by witnesses. -/
def normOracle0 : NormOracle where
  fit := fun _ => (0, 1)
  cdf := fun _ x => x
  ppf := fun _ x => x

/-- Abstract interface for `scipy.stats.gamma` with `floc=0`: a fit
returning `(shape, loc, scale)`, plus cdf and quantile function.  The
structural claims below hold for every such oracle. -/
structure GammaOracle where
  fit : List ℚ → ℚ × ℚ × ℚ
  cdf : ℚ × ℚ × ℚ → ℚ → ℚ
  ppf : ℚ × ℚ × ℚ → ℚ → ℚ

/-- Wet-day subset `data[data >= lower_limit]` (`methods.py` lines
136-137, 155), order preserving as numpy boolean masking is. -/
def wetDays (lowerLimit : ℚ) (data : List ℚ) : List ℚ :=
  data.filter (fun v => decide (lowerLimit ≤ v))

/-- Numpy `np.round`: round half to even. -/
def npRound (q : ℚ) : ℤ :=
  let f := ⌊q⌋
  let r := q - (f : ℚ)
  if r < 1/2 then f
  else if 1/2 < r then f + 1
  else if f % 2 = 0 then f else f + 1

/-- Expected wet-day count after frequency rebalancing (`methods.py`
lines 164-168): `min(int(np.round(len(sce) * obsF * sceF / modF)), len(sce))`. -/
def expectedWetDays (lowerLimit : ℚ) (obs mo sce : List ℚ) : ℕ :=
  let obsF : ℚ := ((wetDays lowerLimit obs).length : ℚ) / (obs.length : ℚ)
  let modF : ℚ := ((wetDays lowerLimit mo).length : ℚ) / (mo.length : ℚ)
  let sceF : ℚ := ((wetDays lowerLimit sce).length : ℚ) / (sce.length : ℚ)
  (min (npRound ((sce.length : ℚ) * obsF * sceF / modF)) (sce.length : ℤ)).toNat

/-- Clipped sorted-sample gamma CDF of a wet-day sample under its own
fit (`methods.py` lines 145-151, 162, 170-171). -/
def gammaCdfSorted (g : GammaOracle) (t : ℚ) (rain : List ℚ) : List ℚ :=
  clipAbove t ((sortQ rain).map (g.cdf (g.fit rain)))

/-- Observation CDF rank-interpolated to the scenario's wet-day length
(`methods.py` lines 175-179). -/
def relObsCdfIntpol (g : GammaOracle) (t lowerLimit : ℚ) (obs sce : List ℚ) : List ℚ :=
  interpToLen (gammaCdfSorted g t (wetDays lowerLimit obs))
    (wetDays lowerLimit sce).length

/-- Model CDF rank-interpolated to the scenario's wet-day length
(`methods.py` lines 180-184). -/
def relModCdfIntpol (g : GammaOracle) (t lowerLimit : ℚ) (mo sce : List ℚ) : List ℚ :=
  interpToLen (gammaCdfSorted g t (wetDays lowerLimit mo))
    (wetDays lowerLimit sce).length

/-- Scenario's own clipped gamma CDF (`methods.py` lines 170-171). -/
def relSceCdf (g : GammaOracle) (t lowerLimit : ℚ) (sce : List ℚ) : List ℚ :=
  gammaCdfSorted g t (wetDays lowerLimit sce)

/-- One-sided inverse-spread adaptation (`methods.py` lines 186-191):
`1 - 1/(obs_inv * sce_inv / mod_inv)` with negatives floored at zero. -/
def relAdaptedRaw (oc mc sc : List ℚ) : List ℚ :=
  (oc.zip (mc.zip sc)).map (fun p =>
    let oi := 1 / (1 - p.1)
    let mi := 1 / (1 - p.2.1)
    let si := 1 / (1 - p.2.2)
    let ad := 1 - 1 / (oi * si / mi)
    if ad < 0 then 0 else ad)

/-- Recovered wet values (`methods.py` lines 193-196):
`gamma.ppf(sort(adapted), obs_fit) * gamma.ppf(sce_cdf, sce_fit) / gamma.ppf(sce_cdf, mod_fit)`. -/
def relXvalsCore (g : GammaOracle) (t lowerLimit : ℚ) (obs mo sce : List ℚ) : List ℚ :=
  let obs_gamma := g.fit (wetDays lowerLimit obs)
  let mod_gamma := g.fit (wetDays lowerLimit mo)
  let sce_gamma := g.fit (wetDays lowerLimit sce)
  let sce_cdf := relSceCdf g t lowerLimit sce
  let adapted := relAdaptedRaw (relObsCdfIntpol g t lowerLimit obs sce)
    (relModCdfIntpol g t lowerLimit mo sce) sce_cdf
  ((sortQ adapted).zip sce_cdf).map
    (fun p => g.ppf obs_gamma p.1 * g.ppf sce_gamma p.2 / g.ppf mod_gamma p.2)

/-- Resize the recovered values to the expected number of wet days
(`methods.py` lines 199-209): rank-interpolate down if there are more
wet days than expected, otherwise left-pad with zeros. -/
def relXvalsResized (g : GammaOracle) (t lowerLimit : ℚ) (obs mo sce : List ℚ)
    (expected : ℕ) : List ℚ :=
  let xvals := relXvalsCore g t lowerLimit obs mo sce
  let nw := (wetDays lowerLimit sce).length
  if expected < nw then interpToLen xvals expected
  else List.replicate (expected - nw) 0 ++ xvals

/-- Relative scaled distribution mapping of one scenario cell
(`methods.py` lines 134-212), including both sample-size skip paths.
The scatter of the resized values onto the top-ranked positions of the
scenario's argsort models `correction[sce_argsort[-expected:]] = xvals`
(faithful for `expected ≥ 1`; at `expected = 0` the Python code raises
a shape-mismatch error). -/
def relative_sdm_cell (g : GammaOracle) (lowerLimit t : ℚ) (minSamplesize : ℕ)
    (obs mo sce : List ℚ) : List ℚ :=
  let obs_raindays := wetDays lowerLimit obs
  let mod_raindays := wetDays lowerLimit mo
  if obs_raindays.length < minSamplesize ∨ mod_raindays.length < minSamplesize then
    sce
  else
    let sce_raindays := wetDays lowerLimit sce
    if sce_raindays.length < minSamplesize then sce
    else
      let expected := expectedWetDays lowerLimit obs mo sce
      let xvals := relXvalsResized g t lowerLimit obs mo sce expected
      let sce_argsort := argsortQ sce
      scatterZeros sce.length (sce_argsort.drop (sce_argsort.length - expected)) xvals

/-- Concrete gamma-distribution oracle used by witnesses and
counterexamples: constant cdf 1/2 and constant quantile 1. -/
def gammaOracle0 : GammaOracle where
  fit := fun _ => (1, 0, 1)
  cdf := fun _ _ => 1/2
  ppf := fun _ _ => 1

/-- Grid data: a list of per-cell time series (the `(y, x)` cells of a
cube, flattened in `np.nditer` order); the observation mask is the
per-cell missing-data mask, `none` when `np.ma.getmask` returns
`np.ma.nomask`. -/
abbrev CellGrid := List (List ℚ)

/-- Truthiness test `if obs_cube_mask and obs_cube_mask[index]` from
`quantile_mapping` (`methods.py` line 62).  `np.ma.nomask` is falsy; a
mask array is only convertible to `bool` when it has exactly one
element, otherwise numpy raises `ValueError` (modelled as `.error ()`). -/
def qmMaskCheck (mask : Option (List Bool)) (i : ℕ) : Except Unit Bool :=
  match mask with
  | none => .ok false
  | some m => if m.length = 1 then .ok (m.getD 0 false && m.getD i false) else .error ()

/-- Mask test `obs_cube_mask.any() and obs_cube_mask[index]` used by
`relative_sdm` (line 128) and `absolute_sdm` (line 250); never raises. -/
def sdmMaskCheck (mask : Option (List Bool)) (i : ℕ) : Bool :=
  match mask with
  | none => false
  | some m => m.any id && m.getD i false

/-- Grid-level quantile mapping (`methods.py` lines 54-76) for one
scenario cube: iterate the observation cells, test the mask with Python
truthiness (which may raise), and correct the non-masked cells. -/
def quantile_mapping (obs mo sce : CellGrid) (mask : Option (List Bool)) :
    Except Unit CellGrid :=
  (List.range obs.length).mapM (fun i => do
    let skip ← qmMaskCheck mask i
    if skip then pure (sce.getD i [])
    else pure (quantileMappingCell (obs.getD i []) (mo.getD i []) (sce.getD i [])))

/-- Correction method selected by the scaled-distribution-mapping
dispatcher. -/
inductive SdmMethod where
  | absolute : SdmMethod
  | relative : SdmMethod
deriving DecidableEq

/-- Dispatch table of `scaled_distribution_mapping` (`methods.py` lines
359-363), keyed by the cube's `standard_name`. -/
def implemented_parameters : List (String × SdmMethod) :=
  [("air_temperature", SdmMethod.absolute),
   ("precipitation_amount", SdmMethod.relative),
   ("surface_downwelling_shortwave_flux_in_air", SdmMethod.relative)]

/-- Dispatcher `scaled_distribution_mapping` (`methods.py` lines
364-369): look up the physical-quantity identity and run the selected
correction (abstracted as `applyMethod`); a failed lookup raises
`KeyError`, which is caught and logged, leaving the scenario data
unmodified. -/
def scaled_distribution_mapping (applyMethod : SdmMethod → CellGrid → CellGrid)
    (standard_name : String) (sce : CellGrid) : CellGrid :=
  match List.lookup standard_name implemented_parameters with
  | some m => applyMethod m sce
  | none => sce

/-- Shape of a calendar year: a Gregorian leap year, a Gregorian
non-leap year, or a 360-day year. -/
inductive YearType where
  | leap : YearType
  | nonleap : YearType
  | d360 : YearType
deriving DecidableEq

/-- Month lengths of each year shape. -/
def monthLengths : YearType → List ℕ
  | .leap => [31, 29, 31, 30, 31, 30, 31, 31, 30, 31, 30, 31]
  | .nonleap => [31, 28, 31, 30, 31, 30, 31, 31, 30, 31, 30, 31]
  | .d360 => List.replicate 12 30

/-- An `iris.time.PartialDateTime` with month and day specified (the
only fields `generate_day_constraint_with_window` sets).  The day is an
integer because the 360-day wrap path can produce out-of-range day
bounds (e.g. day 0), which still compare correctly. -/
structure PDate where
  month : ℕ
  day : ℤ
deriving DecidableEq

/-- PartialDateTime comparison `a <= b` on (month, day): lexicographic
field-by-field comparison as iris implements it. -/
def pdleB (a b : PDate) : Bool :=
  decide (a.month < b.month) || (decide (a.month = b.month) && decide (a.day ≤ b.day))

/-- Strict lexicographic comparison on (month, day). -/
def pdltB (a b : PDate) : Bool :=
  decide (a.month < b.month) || (decide (a.month = b.month) && decide (a.day < b.day))

/-- PartialDateTime equality `cell.point == mid` on the specified
fields (month, day). -/
def dayMatchB (mid p : PDate) : Bool :=
  decide (p.month = mid.month) && decide (p.day = mid.day)

/-- All calendar dates of one year shape, in chronological order. -/
def datesOfYear (yt : YearType) : List PDate :=
  (List.range 12).flatMap (fun (m : ℕ) =>
    (List.range ((monthLengths yt).getD m 0)).map
      (fun (d : ℕ) => ⟨m + 1, (d : ℤ) + 1⟩))

/-- Number of dates of the year lex-at-most a bound. -/
def countLE (yt : YearType) (d : PDate) : ℕ :=
  (datesOfYear yt).countP (fun p => pdleB p d)

/-- Number of dates of the year lex-at-least a bound. -/
def countGE (yt : YearType) (d : PDate) : ℕ :=
  (datesOfYear yt).countP (fun p => pdleB d p)

/-- The `i`-th date (0-based) of a year shape. -/
def dateAt (yt : YearType) (i : ℕ) : PDate := (datesOfYear yt).getD i ⟨1, 1⟩

/-- Proleptic-Gregorian leap-year rule, as Python's `datetime` uses. -/
def isLeapYear (y : ℤ) : Bool :=
  (y % 4 == 0) && (!(y % 100 == 0) || (y % 400 == 0))

/-- Shape of a Gregorian calendar year. -/
def yearShape (y : ℤ) : YearType := if isLeapYear y then .leap else .nonleap

/-- Length in days of a Gregorian calendar year. -/
def yearLenY (y : ℤ) : ℕ := if isLeapYear y then 366 else 365

/-- The (month, day) of the Gregorian date `k` days after January 1 of
year `y`, computed by walking whole years; the fuel bounds the walk (a
Python `datetime` overflows long before 12000 years anyway). -/
def dateFromYearOffset : ℕ → ℤ → ℤ → PDate
  | 0, _, _ => ⟨1, 1⟩
  | fuel + 1, y, k =>
    if k < 0 then dateFromYearOffset fuel (y - 1) (k + (yearLenY (y - 1) : ℤ))
    else if k < (yearLenY y : ℤ) then dateAt (yearShape y) k.toNat
    else dateFromYearOffset fuel (y + 1) (k - (yearLenY y : ℤ))

/-- Month and day of `datetime(startYear, 1, 1) + timedelta(days=k)`
(`utils.py` lines 57-65 and 68-76). -/
def pyMonthDay (startYear k : ℤ) : PDate := dateFromYearOffset 12000 startYear k

/-- Validity of a date bound: month in 1..12 and day in 1..31. -/
def pdValid (p : PDate) : Prop :=
  1 ≤ p.month ∧ p.month ≤ 12 ∧ 1 ≤ p.day ∧ p.day ≤ 31

/-- Calendars accepted by `generate_day_constraint_with_window`. -/
def supported_calendars : List String :=
  ["standard", "gregorian", "proleptic_gregorian", "all_leap", "366_day",
   "noleap", "365_day", "360_day"]

/-- Bounds computed by `generate_day_constraint_with_window` (`utils.py`
lines 54-95): `(mid, begin, end, year_start, year_end)`; an unsupported
calendar raises `ValueError`. -/
def dayWindowBounds (day_of_year window : ℤ) (calendar : String) :
    Except Unit (PDate × PDate × PDate × PDate × PDate) :=
  if calendar ∈ (["standard", "gregorian", "proleptic_gregorian", "all_leap",
      "366_day"] : List String) then
    Except.ok (pyMonthDay 2000 day_of_year,
      pyMonthDay 2000 (day_of_year - window),
      pyMonthDay 2000 (day_of_year + window),
      ⟨1, 1⟩, ⟨12, 31⟩)
  else if calendar ∈ (["noleap", "365_day"] : List String) then
    Except.ok (pyMonthDay 1999 day_of_year,
      pyMonthDay 1999 (day_of_year - window),
      pyMonthDay 1999 (day_of_year + window),
      ⟨1, 1⟩, ⟨12, 31⟩)
  else if calendar = ("360_day") then
    let month : ℤ := day_of_year / 30 + 1
    let day_of_month : ℤ := day_of_year % 30 + 1
    let mid : PDate := ⟨month.toNat, day_of_month⟩
    let start_day := day_of_month - window
    let end_day := day_of_month + window
    let bgn : PDate := if 1 ≤ start_day then ⟨month.toNat, start_day⟩
      else ⟨((month - 2) % 12 + 1).toNat, start_day + 30⟩
    let e : PDate := if end_day ≤ 30 then ⟨month.toNat, end_day⟩
      else ⟨(month % 12 + 1).toNat, end_day - 30⟩
    Except.ok (mid, bgn, e, ⟨1, 1⟩, ⟨12, 30⟩)
  else Except.error ()

/-- Window predicate of `generate_day_constraint_with_window`
(`utils.py` lines 98-104): a single closed interval when
`begin.month <= end.month`, otherwise the union of the two wrap
sub-intervals `[year_start, end]` and `[begin, year_end]`. -/
def windowConstraintB (b e ys ye p : PDate) : Bool :=
  if b.month ≤ e.month then pdleB b p && pdleB p e
  else (pdleB ys p && pdleB p e) || (pdleB b p && pdleB p ye)

/-- Year shapes that actually occur in data carrying each calendar. -/
def dataYearTypes (calendar : String) : List YearType :=
  if calendar ∈ (["standard", "gregorian", "proleptic_gregorian"] : List String) then
    [.leap, .nonleap]
  else if calendar ∈ (["all_leap", "366_day"] : List String) then [.leap]
  else if calendar ∈ (["noleap", "365_day"] : List String) then [.nonleap]
  else if calendar = ("360_day") then [.d360]
  else []

/-- Days in a year of each calendar (the maximal year for the
standard/gregorian family). -/
def calDaysInYear (calendar : String) : ℕ :=
  if calendar ∈ (["standard", "gregorian", "proleptic_gregorian", "all_leap",
      "366_day"] : List String) then 366
  else if calendar ∈ (["noleap", "365_day"] : List String) then 365
  else if calendar = ("360_day") then 360
  else 0

/-- Daily time coordinate of the `test_leap_year` cube: 36525 days
starting 1951-01-01 under the standard calendar, as (month, day) dates
year by year. -/
def test_series_dates : List PDate :=
  (List.range 100).flatMap
    (fun (i : ℕ) => datesOfYear (yearShape (1951 + (i : ℤ))))

theorem argsortQ_perm (l : List ℚ) : (argsortQ l).Perm (List.range l.length) :=
  List.mergeSort_perm _ _

theorem argsortQ_nodup (l : List ℚ) : (argsortQ l).Nodup :=
  ((argsortQ_perm l).nodup_iff).mpr (List.nodup_range _)

theorem argsortQ_length (l : List ℚ) : (argsortQ l).length = l.length := by
  simpa using (argsortQ_perm l).length_eq

theorem argsortQ_mem_lt (l : List ℚ) (i : ℕ) (h : i ∈ argsortQ l) : i < l.length := by
  have := (argsortQ_perm l).mem_iff.mp h
  simpa using this

theorem scatterZeros_length (n : ℕ) (is : List ℕ) (vs : List ℚ) :
    (scatterZeros n is vs).length = n := by
  induction is generalizing vs with
  | nil => simp [scatterZeros]
  | cons i is ih =>
    cases vs with
    | nil => simp [scatterZeros]
    | cons v vs => simp [scatterZeros, ih]

theorem scatterZeros_getD_of_not_mem (n : ℕ) (is : List ℕ) (vs : List ℚ)
    (i : ℕ) (h : i ∉ is) : (scatterZeros n is vs).getD i 0 = 0 := by
  induction is generalizing vs with
  | nil => simp [scatterZeros, List.getD]
  | cons j js ih =>
    cases vs with
    | nil => simp [scatterZeros, List.getD]
    | cons v vs =>
      have hij : i ≠ j := by intro hc; exact h (by simp [hc])
      have hjs : i ∉ js := fun hc => h (by simp [hc])
      show ((scatterZeros n js vs).set j v).getD i 0 = 0
      rw [List.getD_eq_getElem?_getD, List.getElem?_set_ne (fun hc => hij hc.symm),
        ← List.getD_eq_getElem?_getD]
      exact ih vs hjs

/-- Scattering distinct in-range indices produces a permutation of the
values padded with zeros for the untouched positions. -/
theorem scatterZeros_perm (n : ℕ) (is : List ℕ) (vs : List ℚ)
    (hnd : is.Nodup) (hlt : ∀ i ∈ is, i < n) (hlen : is.length = vs.length) :
    (scatterZeros n is vs).Perm (vs ++ List.replicate (n - vs.length) 0) := by
  induction is generalizing vs with
  | nil =>
    cases vs with
    | nil => simp [scatterZeros]
    | cons v vs => exact absurd hlen (by simp)
  | cons i is ih =>
    cases vs with
    | nil => exact absurd hlen (by simp)
    | cons v vs =>
      have hnd' : is.Nodup := hnd.of_cons
      have hi_not : i ∉ is := by
        have := hnd; rw [List.nodup_cons] at this; exact this.1
      have hlt' : ∀ j ∈ is, j < n := fun j hj => hlt j (by simp [hj])
      have hlen' : is.length = vs.length := by simpa using hlen
      have hIH := ih vs hnd' hlt' hlen'
      set L := scatterZeros n is vs with hL
      have hLlen : L.length = n := scatterZeros_length n is vs
      have hin : i < L.length := by rw [hLlen]; exact hlt i (by simp)
      have hL0 : L.getD i 0 = 0 := scatterZeros_getD_of_not_mem n is vs i hi_not
      have hLi : L[i] = 0 := by
        rw [List.getD_eq_getElem L 0 hin] at hL0; exact hL0
      -- the length budget: i :: is is a duplicate-free list of indices < n
      have hcard : is.length + 1 ≤ n := by
        have h1 : (i :: is).toFinset.card = (i :: is).length :=
          List.toFinset_card_of_nodup hnd
        have h2 : (i :: is).toFinset ⊆ Finset.range n := by
          intro x hx
          rw [List.mem_toFinset] at hx
          exact Finset.mem_range.mpr (hlt x hx)
        have := Finset.card_le_card h2
        rw [h1] at this
        simpa [Finset.card_range] using this
      have hk : 1 ≤ n - vs.length := by omega
      -- set i v = take i ++ v :: drop (i+1), and L = take i ++ 0 :: drop (i+1)
      have hset : L.set i v = L.take i ++ v :: L.drop (i + 1) := by
        rw [List.set_eq_take_append_cons_drop]
        simp [hin]
      have hsplit : L = L.take i ++ (0 : ℚ) :: L.drop (i + 1) := by
        conv_lhs => rw [← List.take_append_drop i L]
        rw [List.drop_eq_getElem_cons hin, hLi]
      have p1 : (L.set i v).Perm (v :: (L.take i ++ L.drop (i + 1))) := by
        rw [hset]; exact List.perm_middle
      have p2 : ((0 : ℚ) :: (L.take i ++ L.drop (i + 1))).Perm
          (vs ++ List.replicate (n - vs.length) 0) := by
        have h1 : ((0 : ℚ) :: (L.take i ++ L.drop (i + 1))).Perm L := by
          conv_rhs => rw [hsplit]
          exact List.perm_middle.symm
        exact h1.trans hIH
      have p3 : (vs ++ List.replicate (n - vs.length) 0).Perm
          ((0 : ℚ) :: (vs ++ List.replicate (n - (vs.length + 1)) 0)) := by
        have hrep : List.replicate (n - vs.length) (0 : ℚ) =
            (0 : ℚ) :: List.replicate (n - (vs.length + 1)) 0 := by
          have h' : n - vs.length = (n - (vs.length + 1)) + 1 := by omega
          rw [h', List.replicate_succ]
        rw [hrep]
        exact List.perm_middle
      have p4 : (L.take i ++ L.drop (i + 1)).Perm
          (vs ++ List.replicate (n - (vs.length + 1)) 0) :=
        ((p2.trans p3).cons_inv)
      have pfinal : (L.set i v).Perm
          ((v :: vs) ++ List.replicate (n - (v :: vs).length) 0) := by
        refine p1.trans ?_
        have := p4.cons v
        simpa using this
      simpa [scatterZeros, hL] using pfinal

theorem scatterZeros_sum (n : ℕ) (is : List ℕ) (vs : List ℚ)
    (hnd : is.Nodup) (hlt : ∀ i ∈ is, i < n) (hlen : is.length = vs.length) :
    (scatterZeros n is vs).sum = vs.sum := by
  have := (scatterZeros_perm n is vs hnd hlt hlen).sum_eq
  simpa using this

theorem scatterZeros_countP (p : ℚ → Bool) (hp : p 0 = false)
    (n : ℕ) (is : List ℕ) (vs : List ℚ)
    (hnd : is.Nodup) (hlt : ∀ i ∈ is, i < n) (hlen : is.length = vs.length) :
    (scatterZeros n is vs).countP p = vs.countP p := by
  have := (scatterZeros_perm n is vs hnd hlt hlen).countP_eq p
  rw [this, List.countP_append]
  have : (List.replicate (n - vs.length) (0 : ℚ)).countP p = 0 := by
    rw [List.countP_eq_zero]
    intro a ha
    rw [List.eq_of_mem_replicate ha]
    simp [hp]
  omega

theorem sum_map_addConst (l : List ℚ) (k : ℚ) :
    (l.map (fun v => v + k)).sum = l.sum + l.length * k := by
  induction l with
  | nil => simp
  | cons x xs ih => simp [ih]; ring

theorem sum_map_subMean (l : List ℚ) (k : ℚ) :
    (l.map (fun v => v - k)).sum = l.sum - l.length * k := by
  have := sum_map_addConst l (-k)
  simpa [sub_eq_add_neg] using this

theorem sum_zip_add_sub (c d : List ℚ) (k : ℚ) (h : c.length = d.length) :
    ((c.zip d).map (fun p => p.1 + (p.2 - k))).sum =
      c.sum + d.sum - c.length * k := by
  induction c generalizing d with
  | nil => cases d with
    | nil => simp
    | cons y ys => exact absurd h (by simp)
  | cons x xs ih =>
    cases d with
    | nil => exact absurd h (by simp)
    | cons y ys =>
      have h' : xs.length = ys.length := by simpa using h
      simp [ih ys h']
      ring

theorem sum_zip_sub (c d : List ℚ) (h : c.length = d.length) :
    ((c.zip d).map (fun p => p.1 - p.2)).sum = c.sum - d.sum := by
  induction c generalizing d with
  | nil => cases d with
    | nil => simp
    | cons y ys => exact absurd h (by simp)
  | cons x xs ih =>
    cases d with
    | nil => exact absurd h (by simp)
    | cons y ys =>
      have h' : xs.length = ys.length := by simpa using h
      simp [ih ys h']
      ring

theorem sum_zip_residual (xs ys : List ℚ) (a b : ℚ) (h : xs.length = ys.length) :
    ((xs.zip ys).map (fun p => p.2 - (a + b * p.1))).sum =
      ys.sum - ((xs.length : ℚ) * a + b * xs.sum) := by
  induction xs generalizing ys with
  | nil => cases ys with
    | nil => simp
    | cons y ys => exact absurd h (by simp)
  | cons x xs ih =>
    cases ys with
    | nil => exact absurd h (by simp)
    | cons y ys =>
      have h' : xs.length = ys.length := by simpa using h
      simp [ih ys h']
      ring

theorem xGrid_length (n : ℕ) : (xGrid n).length = n := by
  rw [xGrid, List.length_map, List.length_range]

theorem detrendQ_length (ys : List ℚ) : (detrendQ ys).length = ys.length := by
  simp [detrendQ, xGrid_length]

/-- Least-squares residuals with an intercept sum to zero: the detrended
series has mean zero. -/
theorem detrendQ_sum (ys : List ℚ) (h : ys ≠ []) : (detrendQ ys).sum = 0 := by
  have hn : (ys.length : ℚ) ≠ 0 :=
    Nat.cast_ne_zero.mpr (List.length_pos.mpr h).ne'
  unfold detrendQ
  rw [sum_zip_residual _ _ _ _ (by simp [xGrid_length])]
  rw [xGrid_length]
  field_simp

theorem normCdfSorted_length (g : NormOracle) (t : ℚ) (data : List ℚ) :
    (normCdfSorted g t data).length = data.length := by
  simp [normCdfSorted, clipBoth, sortQ, List.length_mergeSort, detrendQ_length]

theorem interpToLen_length (fp : List ℚ) (m : ℕ) : (interpToLen fp m).length = m := by
  rw [interpToLen, List.length_map, linspaceQ, List.length_map, List.length_range]

theorem absXvalsRaw_length (g : NormOracle) (t : ℚ) (obs mo sce : List ℚ) :
    (absXvalsRaw g t obs mo sce).length = sce.length := by
  simp [absXvalsRaw, absAdaptedCdf, absAdaptedRaw, clipBoth, sortQ,
    List.length_mergeSort, interpToLen_length, normCdfSorted_length]

/-- C2: the mean of the corrected scenario series produced by absolute
SDM (which already contains the re-added trend component) equals
`obs_mean + (scenario_mean - model_mean)`; exact over `ℚ`, which is the
floating-point-tolerance statement of the spec made exact. -/
theorem absolute_sdm_mean (g : NormOracle) (t : ℚ) (obs mo sce : List ℚ)
    (h : sce ≠ []) :
    qmean (absolute_sdm_cell g t obs mo sce) =
      qmean obs + (qmean sce - qmean mo) := by
  have hn : (sce.length : ℚ) ≠ 0 :=
    Nat.cast_ne_zero.mpr (List.length_pos.mpr h).ne'
  set K : ℚ := qmean obs + (qmean sce - qmean mo) with hK
  set raw := absXvalsRaw g t obs mo sce with hraw
  have hrawlen : raw.length = sce.length := absXvalsRaw_length g t obs mo sce
  -- the placed values sum to n * K
  have hxv : (absXvals g t obs mo sce).sum = (sce.length : ℚ) * K := by
    rw [absXvals]
    rw [sum_map_addConst, sum_map_subMean]
    simp only [List.length_map, ← hraw, hrawlen]
    have : (sce.length : ℚ) * qmean raw = raw.sum := by
      rw [qmean, hrawlen]
      field_simp
    rw [this]
    ring
  have hxvlen : (absXvals g t obs mo sce).length = sce.length := by
    simp [absXvals, ← hraw, hrawlen]
  -- scattering preserves the sum
  have hcorr : (scatterZeros sce.length (argsortQ (detrendQ sce))
      (absXvals g t obs mo sce)).sum = (sce.length : ℚ) * K := by
    rw [scatterZeros_sum _ _ _ (argsortQ_nodup _)
      (fun i hi => by simpa [detrendQ_length] using argsortQ_mem_lt _ i hi)
      (by rw [argsortQ_length, detrendQ_length, hxvlen])]
    exact hxv
  -- the trend component sums to the scenario total
  have hdiff : ((sce.zip (detrendQ sce)).map (fun p => p.1 - p.2)).sum = sce.sum := by
    rw [sum_zip_sub _ _ (by rw [detrendQ_length])]
    rw [detrendQ_sum sce h]
    ring
  have hdifflen : ((sce.zip (detrendQ sce)).map (fun p => p.1 - p.2)).length
      = sce.length := by
    simp [detrendQ_length]
  have hcorrlen : (scatterZeros sce.length (argsortQ (detrendQ sce))
      (absXvals g t obs mo sce)).length = sce.length := scatterZeros_length _ _ _
  -- assemble
  rw [absolute_sdm_cell, qmean]
  rw [sum_zip_add_sub _ _ _ (by rw [hcorrlen, hdifflen])]
  rw [hcorr, hdiff, hcorrlen]
  have hmean : (sce.length : ℚ) * qmean sce = sce.sum := by
    rw [qmean]; field_simp
  rw [hmean]
  have hlen2 : ((scatterZeros sce.length (argsortQ (detrendQ sce))
      (absXvals g t obs mo sce)).zip
        ((sce.zip (detrendQ sce)).map (fun p => p.1 - p.2))).length = sce.length := by
    simp [hcorrlen, hdifflen]
  rw [List.length_map, hlen2]
  field_simp

/-- Witness for `absolute_sdm_mean` at a concrete input. -/
theorem absolute_sdm_mean_witness :
    qmean (absolute_sdm_cell normOracle0 (99999/100000) [1, 3] [0, 2] [2, 4]) =
      qmean [1, 3] + (qmean [2, 4] - qmean [0, 2]) :=
  absolute_sdm_mean normOracle0 (99999/100000) [1, 3] [0, 2] [2, 4] (by decide)

theorem gammaCdfSorted_length (g : GammaOracle) (t : ℚ) (rain : List ℚ) :
    (gammaCdfSorted g t rain).length = rain.length := by
  simp [gammaCdfSorted, clipAbove, sortQ, List.length_mergeSort]

theorem relXvalsCore_length (g : GammaOracle) (t lowerLimit : ℚ) (obs mo sce : List ℚ) :
    (relXvalsCore g t lowerLimit obs mo sce).length = (wetDays lowerLimit sce).length := by
  simp [relXvalsCore, relAdaptedRaw, relSceCdf, relObsCdfIntpol, relModCdfIntpol,
    sortQ, List.length_mergeSort, interpToLen_length, gammaCdfSorted_length]

theorem expectedWetDays_le (lowerLimit : ℚ) (obs mo sce : List ℚ) :
    expectedWetDays lowerLimit obs mo sce ≤ sce.length := by
  unfold expectedWetDays
  exact Int.toNat_le.mpr (min_le_right _ _)

theorem relXvalsResized_length (g : GammaOracle) (t lowerLimit : ℚ)
    (obs mo sce : List ℚ) (expected : ℕ) :
    (relXvalsResized g t lowerLimit obs mo sce expected).length = expected := by
  unfold relXvalsResized
  by_cases hc : expected < (wetDays lowerLimit sce).length
  · simp [hc, interpToLen_length]
  · simp only [if_neg hc, List.length_append, List.length_replicate, relXvalsCore_length]
    omega

/-- C5: relative SDM leaves a cell's scenario series bit-identical to
its input when the observation or model wet-sample count is below
`min_samplesize`, and likewise when only the scenario's own wet-sample
count is below `min_samplesize`. -/
theorem relative_sdm_skip (g : GammaOracle) (lowerLimit t : ℚ)
    (minSamplesize : ℕ) (obs mo sce : List ℚ) :
    ((wetDays lowerLimit obs).length < minSamplesize ∨
        (wetDays lowerLimit mo).length < minSamplesize →
      relative_sdm_cell g lowerLimit t minSamplesize obs mo sce = sce) ∧
    (minSamplesize ≤ (wetDays lowerLimit obs).length →
      minSamplesize ≤ (wetDays lowerLimit mo).length →
      (wetDays lowerLimit sce).length < minSamplesize →
      relative_sdm_cell g lowerLimit t minSamplesize obs mo sce = sce) := by
  constructor
  · intro h
    unfold relative_sdm_cell
    rw [if_pos h]
  · intro ho hm hs
    unfold relative_sdm_cell
    rw [if_neg (by omega), if_pos hs]

/-- Witness for `relative_sdm_skip`: a cell with a single observation
wet day and the default `min_samplesize = 10` passes through unchanged. -/
theorem relative_sdm_skip_witness :
    relative_sdm_cell gammaOracle0 (1/10) (99999999/100000000) 10
      [1] [1] [1, 0] = [1, 0] :=
  (relative_sdm_skip gammaOracle0 (1/10) (99999999/100000000) 10
    [1] [1] [1, 0]).1 (of_decide_eq_true (by with_unfolding_all rfl))

/-- C1 (counterexample): a corrected cell whose wet-sample counts all
meet `min_samplesize` but whose non-zero count differs from
`expected_wet_days`.  Here the scenario has 1 wet day while
`expected_wet_days = 2`, so the deficit position is zero-padded and the
corrected series has only 1 non-zero value. -/
theorem relative_sdm_wet_count_counterexample :
    (relative_sdm_cell gammaOracle0 (1/2) (99999999/100000000) 1
        [1] [1, 0] [1, 0]).countP (fun v => decide (v ≠ 0)) ≠
      expectedWetDays (1/2) [1] [1, 0] [1, 0] :=
  of_decide_eq_true (by with_unfolding_all rfl)

/-- C1 (amended): for a cell that is actually corrected (all three
wet-sample counts at least `min_samplesize`, and at least one expected
wet day so the Python slicing is well defined), the number of non-zero
values of the corrected series equals the number of non-zero entries of
the resized recovered-value vector, which is at most
`expected_wet_days` -- equality with `expected_wet_days` holds exactly
when every resized entry is non-zero, and fails e.g. under zero-padding. -/
theorem relative_sdm_wet_count (g : GammaOracle) (lowerLimit t : ℚ)
    (minSamplesize : ℕ) (obs mo sce : List ℚ)
    (ho : minSamplesize ≤ (wetDays lowerLimit obs).length)
    (hm : minSamplesize ≤ (wetDays lowerLimit mo).length)
    (hs : minSamplesize ≤ (wetDays lowerLimit sce).length)
    (he : 1 ≤ expectedWetDays lowerLimit obs mo sce) :
    (relative_sdm_cell g lowerLimit t minSamplesize obs mo sce).countP
        (fun v => decide (v ≠ 0)) =
      (relXvalsResized g t lowerLimit obs mo sce
          (expectedWetDays lowerLimit obs mo sce)).countP
        (fun v => decide (v ≠ 0)) ∧
    (relXvalsResized g t lowerLimit obs mo sce
        (expectedWetDays lowerLimit obs mo sce)).countP
      (fun v => decide (v ≠ 0)) ≤ expectedWetDays lowerLimit obs mo sce := by
  have hexp := expectedWetDays_le lowerLimit obs mo sce
  constructor
  · unfold relative_sdm_cell
    rw [if_neg (by omega), if_neg (by omega)]
    refine scatterZeros_countP _ (by decide) _ _ _ ?_ ?_ ?_
    · exact (argsortQ_nodup sce).sublist (List.drop_sublist _ _)
    · intro i hi
      exact argsortQ_mem_lt sce i (List.mem_of_mem_drop hi)
    · rw [List.length_drop, argsortQ_length, relXvalsResized_length]
      omega
  · calc (relXvalsResized g t lowerLimit obs mo sce
        (expectedWetDays lowerLimit obs mo sce)).countP (fun v => decide (v ≠ 0)) ≤
        (relXvalsResized g t lowerLimit obs mo sce
          (expectedWetDays lowerLimit obs mo sce)).length := List.countP_le_length _
    _ = expectedWetDays lowerLimit obs mo sce := relXvalsResized_length ..

/-- Witness for `relative_sdm_wet_count` at the counterexample input. -/
theorem relative_sdm_wet_count_witness :
    (relative_sdm_cell gammaOracle0 (1/2) (99999999/100000000) 1
        [1] [1, 0] [1, 0]).countP (fun v => decide (v ≠ 0)) =
      (relXvalsResized gammaOracle0 (99999999/100000000) (1/2) [1] [1, 0] [1, 0]
          (expectedWetDays (1/2) [1] [1, 0] [1, 0])).countP
        (fun v => decide (v ≠ 0)) ∧
    (relXvalsResized gammaOracle0 (99999999/100000000) (1/2) [1] [1, 0] [1, 0]
        (expectedWetDays (1/2) [1] [1, 0] [1, 0])).countP
      (fun v => decide (v ≠ 0)) ≤ expectedWetDays (1/2) [1] [1, 0] [1, 0] :=
  relative_sdm_wet_count gammaOracle0 (1/2) (99999999/100000000) 1
    [1] [1, 0] [1, 0] (of_decide_eq_true (by with_unfolding_all rfl))
    (of_decide_eq_true (by with_unfolding_all rfl))
    (of_decide_eq_true (by with_unfolding_all rfl))
    (of_decide_eq_true (by with_unfolding_all rfl))

/-- C3: for every non-masked cell and every scenario sample, quantile
mapping adds to the sample exactly the correction
`percentile(obs, p) - percentile(mod, p)` where `p` is the sample's
percentile rank under the model ECDF on a 0-100 scale. -/
theorem quantile_mapping_pointwise (obs mo sce : List ℚ) (i : ℕ)
    (h : i < sce.length) :
    (quantileMappingCell obs mo sce).getD i 0 =
      sce.getD i 0 +
        (percentileQ obs (ecdfQ mo (sce.getD i 0) * 100) -
          percentileQ mo (ecdfQ mo (sce.getD i 0) * 100)) := by
  have hm : i < (quantileMappingCell obs mo sce).length := by
    simpa [quantileMappingCell] using h
  rw [List.getD_eq_getElem _ _ hm, List.getD_eq_getElem _ _ h]
  simp [quantileMappingCell, qmCorrection]

/-- Witness for `quantile_mapping_pointwise` at a concrete input. -/
theorem quantile_mapping_pointwise_witness :
    (quantileMappingCell [1, 2] [3, 4] [5]).getD 0 0 =
      [(5 : ℚ)].getD 0 0 +
        (percentileQ [1, 2] (ecdfQ [3, 4] ([(5 : ℚ)].getD 0 0) * 100) -
          percentileQ [3, 4] (ecdfQ [3, 4] ([(5 : ℚ)].getD 0 0) * 100)) :=
  quantile_mapping_pointwise [1, 2] [3, 4] [5] 0 (by decide)

/-- C4: if the observation and model cell series are identical, the
quantile-mapping correction vanishes and every scenario series is left
unchanged. -/
theorem quantile_mapping_idempotent (obs mo sce : List ℚ) (h : obs = mo) :
    quantileMappingCell obs mo sce = sce := by
  subst h
  simp [quantileMappingCell, qmCorrection]

/-- Witness for `quantile_mapping_idempotent` at a concrete input. -/
theorem quantile_mapping_idempotent_witness :
    quantileMappingCell [1, 2, 3] [1, 2, 3] [4, 5] = [4, 5] :=
  quantile_mapping_idempotent [1, 2, 3] [1, 2, 3] [4, 5] rfl

/-- C8 (failing evaluation): with an observation mask array of more
than one element -- here two cells, the first one masked -- the
masked-cell skip test of `quantile_mapping` raises numpy's `ValueError`
(truth value of a multi-element array is ambiguous) instead of skipping
the masked cell, because line 62 tests `if obs_cube_mask and ...`
rather than `obs_cube_mask.any()`. -/
theorem quantile_mapping_mask_raises :
    quantile_mapping [[1], [2]] [[1], [2]] [[1], [2]] (some [true, false]) =
      Except.error () := by
  rfl

/-- C9: the dispatcher maps `air_temperature` to absolute SDM and the
two precipitation/radiation identities to relative SDM, and for any
unknown identity it leaves the scenario data unmodified without
raising. -/
theorem scaled_distribution_mapping_dispatch
    (applyMethod : SdmMethod → CellGrid → CellGrid) (sce : CellGrid) :
    List.lookup ("air_temperature") implemented_parameters =
      some SdmMethod.absolute ∧
    List.lookup ("precipitation_amount") implemented_parameters =
      some SdmMethod.relative ∧
    List.lookup ("surface_downwelling_shortwave_flux_in_air")
      implemented_parameters = some SdmMethod.relative ∧
    (∀ standard_name : String,
      List.lookup standard_name implemented_parameters = none →
      scaled_distribution_mapping applyMethod standard_name sce = sce) := by
  refine ⟨rfl, rfl, rfl, ?_⟩
  intro standard_name h
  unfold scaled_distribution_mapping
  rw [h]

/-- Witness for `scaled_distribution_mapping_dispatch`: an unsupported
identity passes the scenario through unchanged. -/
theorem scaled_distribution_mapping_dispatch_witness :
    scaled_distribution_mapping (fun _ _ => []) ("wind_speed") [[1]] = [[1]] :=
  (scaled_distribution_mapping_dispatch (fun _ _ => []) [[1]]).2.2.2
    ("wind_speed") rfl

/-- Every interpolated value is a convex combination of two sample
values (or the input is empty and the result is 0). -/
theorem interpAt_cases (fp : List ℚ) (q : ℚ) :
    (fp = [] ∧ interpAt fp q = 0) ∨
    ∃ a ∈ fp, ∃ b ∈ fp, ∃ s : ℚ,
      0 ≤ s ∧ s ≤ 1 ∧ interpAt fp q = (1 - s) * a + s * b := by
  by_cases h0 : fp.length = 0
  · left
    exact ⟨List.length_eq_zero.mp h0, by rw [interpAt, if_pos h0]⟩
  · right
    have hpos : 0 < fp.length := Nat.pos_of_ne_zero h0
    by_cases h1 : q ≤ 1
    · refine ⟨fp.getD 0 0, ?_, fp.getD 0 0, ?_, 0, le_refl 0, by norm_num, ?_⟩
      · rw [List.getD_eq_getElem fp 0 hpos]; exact List.getElem_mem _
      · rw [List.getD_eq_getElem fp 0 hpos]; exact List.getElem_mem _
      · rw [interpAt, if_neg h0, if_pos h1]; ring
    · by_cases h2 : (fp.length : ℚ) ≤ q
      · have hlt : fp.length - 1 < fp.length := by omega
        refine ⟨fp.getD (fp.length - 1) 0, ?_, fp.getD (fp.length - 1) 0, ?_,
          0, le_refl 0, by norm_num, ?_⟩
        · rw [List.getD_eq_getElem fp 0 hlt]; exact List.getElem_mem _
        · rw [List.getD_eq_getElem fp 0 hlt]; exact List.getElem_mem _
        · rw [interpAt, if_neg h0, if_neg h1, if_pos h2]; ring
      · have hq1 : (1 : ℚ) < q := lt_of_not_le h1
        have hqn : q < (fp.length : ℚ) := lt_of_not_le h2
        have hfl1 : (1 : ℤ) ≤ ⌊q⌋ := Int.le_floor.mpr (by exact_mod_cast hq1.le)
        have hfln : ⌊q⌋ < (fp.length : ℤ) := Int.floor_lt.mpr (by exact_mod_cast hqn)
        set j : ℕ := (⌊q⌋).toNat with hj
        have hjcast : (j : ℤ) = ⌊q⌋ := Int.toNat_of_nonneg (by omega)
        have hjq : (j : ℚ) = ((⌊q⌋ : ℤ) : ℚ) := by exact_mod_cast hjcast
        have hj1 : 1 ≤ j := by omega
        have hjn : j < fp.length := by omega
        have hjn1 : j - 1 < fp.length := by omega
        refine ⟨fp.getD (j - 1) 0, ?_, fp.getD j 0, ?_, q - (j : ℚ), ?_, ?_, ?_⟩
        · rw [List.getD_eq_getElem fp 0 hjn1]; exact List.getElem_mem _
        · rw [List.getD_eq_getElem fp 0 hjn]; exact List.getElem_mem _
        · rw [hjq]; have := Int.floor_le q; linarith
        · rw [hjq]; have := Int.lt_floor_add_one q; linarith
        · rw [interpAt, if_neg h0, if_neg h1, if_neg h2]

theorem clipAbove_mem_le (t : ℚ) (l : List ℚ) (v : ℚ) (h : v ∈ clipAbove t l) :
    v ≤ t := by
  obtain ⟨x, _, rfl⟩ := List.mem_map.mp h
  exact min_le_right x t

theorem clipBoth_mem_bounds (t : ℚ) (l : List ℚ) (ht : 1/2 ≤ t) (v : ℚ)
    (h : v ∈ clipBoth t l) : 1 - t ≤ v ∧ v ≤ t := by
  obtain ⟨x, _, rfl⟩ := List.mem_map.mp h
  exact ⟨le_max_right _ _, max_le (min_le_right x t) (by linarith)⟩

/-- C10: no inverse-spread divisor is zero.  In relative SDM the three
divisors `1 - cdf` (`methods.py` lines 187-189) are strictly positive
because CDF values are clipped above at `cdf_threshold < 1` before
interpolation; in absolute SDM the three divisors `0.5 - |cdf - 0.5|`
(lines 313-315) are strictly positive because CDF values are clipped
into `[1 - cdf_threshold, cdf_threshold]` with `1/2 ≤ cdf_threshold < 1`
(nonempty series; interpolation keeps values in the clip interval). -/
theorem sdm_inverse_divisors_pos (gg : GammaOracle) (gn : NormOracle)
    (tr ta lowerLimit : ℚ) (obs mo sce obsA moA sceA : List ℚ)
    (htr : tr < 1) (hta1 : 1/2 ≤ ta) (hta2 : ta < 1)
    (hoA : obsA ≠ []) (hmA : moA ≠ []) :
    (∀ c ∈ relObsCdfIntpol gg tr lowerLimit obs sce, 0 < 1 - c) ∧
    (∀ c ∈ relModCdfIntpol gg tr lowerLimit mo sce, 0 < 1 - c) ∧
    (∀ c ∈ relSceCdf gg tr lowerLimit sce, 0 < 1 - c) ∧
    (∀ c ∈ interpToLen (normCdfSorted gn ta obsA) sceA.length,
      0 < 1/2 - |c - 1/2|) ∧
    (∀ c ∈ interpToLen (normCdfSorted gn ta moA) sceA.length,
      0 < 1/2 - |c - 1/2|) ∧
    (∀ c ∈ normCdfSorted gn ta sceA, 0 < 1/2 - |c - 1/2|) := by
  have hrel : ∀ (fp : List ℚ) (m : ℕ), (∀ v ∈ fp, v ≤ tr) →
      ∀ c ∈ interpToLen fp m, 0 < 1 - c := by
    intro fp m hb c hc
    obtain ⟨q, _, rfl⟩ := List.mem_map.mp hc
    rcases interpAt_cases fp q with ⟨_, hz⟩ | ⟨a, ha, b, hbm, s, hs0, hs1, hv⟩
    · rw [hz]; norm_num
    · rw [hv]
      have h1 := hb a ha
      have h2 := hb b hbm
      nlinarith
  have habsPoint : ∀ c : ℚ, 1 - ta ≤ c → c ≤ ta → 0 < 1/2 - |c - 1/2| := by
    intro c hc1 hc2
    have : |c - 1/2| < 1/2 := abs_lt.mpr ⟨by linarith, by linarith⟩
    linarith
  have habs : ∀ (fp : List ℚ) (m : ℕ), fp ≠ [] →
      (∀ v ∈ fp, 1 - ta ≤ v ∧ v ≤ ta) →
      ∀ c ∈ interpToLen fp m, 0 < 1/2 - |c - 1/2| := by
    intro fp m hne hb c hc
    obtain ⟨q, _, rfl⟩ := List.mem_map.mp hc
    rcases interpAt_cases fp q with ⟨he, _⟩ | ⟨a, ha, b, hbm, s, hs0, hs1, hv⟩
    · exact absurd he hne
    · rw [hv]
      obtain ⟨ha1, ha2⟩ := hb a ha
      obtain ⟨hb1, hb2⟩ := hb b hbm
      refine habsPoint _ (by nlinarith) (by nlinarith)
  refine ⟨?_, ?_, ?_, ?_, ?_, ?_⟩
  · exact hrel _ _ (fun v hv => clipAbove_mem_le tr _ v hv)
  · exact hrel _ _ (fun v hv => clipAbove_mem_le tr _ v hv)
  · intro c hc
    have := clipAbove_mem_le tr _ c hc
    linarith
  · refine habs _ _ ?_ (fun v hv => clipBoth_mem_bounds ta _ hta1 v hv)
    intro he
    have := normCdfSorted_length gn ta obsA
    rw [he] at this
    exact hoA (List.length_eq_zero.mp this.symm)
  · refine habs _ _ ?_ (fun v hv => clipBoth_mem_bounds ta _ hta1 v hv)
    intro he
    have := normCdfSorted_length gn ta moA
    rw [he] at this
    exact hmA (List.length_eq_zero.mp this.symm)
  · intro c hc
    obtain ⟨h1, h2⟩ := clipBoth_mem_bounds ta _ hta1 c hc
    exact habsPoint c h1 h2

/-- Witness for `sdm_inverse_divisors_pos` at a concrete input. -/
theorem sdm_inverse_divisors_pos_witness :
    0 < 1/2 - |(normCdfSorted normOracle0 (99999/100000) [(1 : ℚ)]).getD 0 0 - 1/2| := by
  have hm : (normCdfSorted normOracle0 (99999/100000) [(1 : ℚ)]).getD 0 0 ∈
      normCdfSorted normOracle0 (99999/100000) [(1 : ℚ)] := by
    have hlen : 0 < (normCdfSorted normOracle0 (99999/100000) [(1 : ℚ)]).length := by
      rw [normCdfSorted_length]
      decide
    rw [List.getD_eq_getElem _ 0 hlen]
    exact List.getElem_mem _
  exact (sdm_inverse_divisors_pos gammaOracle0 normOracle0
    (99999999/100000000) (99999/100000) (1/10) [] [] [] [(1 : ℚ)] [(1 : ℚ)] [(1 : ℚ)]
    (of_decide_eq_true (by with_unfolding_all rfl))
    (of_decide_eq_true (by with_unfolding_all rfl))
    (of_decide_eq_true (by with_unfolding_all rfl))
    (by simp) (by simp)).2.2.2.2.2 _ hm

theorem pdltB_trans (a b c : PDate) (h1 : pdltB a b = true) (h2 : pdltB b c = true) :
    pdltB a c = true := by
  simp only [pdltB, Bool.or_eq_true, Bool.and_eq_true, decide_eq_true_eq] at *
  omega

theorem pdleB_refl (a : PDate) : pdleB a a = true := by
  simp [pdleB]

theorem pdltB_le (a b : PDate) (h : pdltB a b = true) : pdleB a b = true := by
  simp only [pdltB, pdleB, Bool.or_eq_true, Bool.and_eq_true, decide_eq_true_eq] at *
  omega

theorem pdltB_not_ge (a b : PDate) (h : pdltB a b = true) : pdleB b a = false := by
  simp only [pdltB, pdleB, Bool.or_eq_true, Bool.and_eq_true, decide_eq_true_eq,
    Bool.eq_false_iff, ne_eq, not_or, not_and, not_lt] at *
  omega

theorem pdltB_month_le (a b : PDate) (h : pdltB a b = true) : a.month ≤ b.month := by
  simp only [pdltB, Bool.or_eq_true, Bool.and_eq_true, decide_eq_true_eq] at h
  omega

theorem chain'_to_pairwise {α : Type} {R : α → α → Prop}
    (tr : ∀ a b c, R a b → R b c → R a c) :
    ∀ l : List α, l.Chain' R → l.Pairwise R := by
  intro l
  induction l with
  | nil => intro _; exact List.Pairwise.nil
  | cons x xs ih =>
    intro h
    rw [List.chain'_cons'] at h
    obtain ⟨hx, hxs⟩ := h
    refine List.Pairwise.cons ?_ (ih hxs)
    intro y hy
    -- walk from the head of xs to y using transitivity
    have hpair := ih hxs
    cases xs with
    | nil => cases hy
    | cons z zs =>
      have hxz : R x z := hx z rfl
      rcases List.mem_cons.mp hy with rfl | hyz
      · exact hxz
      · have := (List.pairwise_cons.mp hpair).1 y hyz
        exact tr x z y hxz this

theorem adjSorted_chain (l : List PDate)
    (h : (l.zip l.tail).all (fun p => pdltB p.1 p.2) = true) :
    l.Chain' (fun a b => pdltB a b = true) := by
  induction l with
  | nil => exact List.chain'_nil
  | cons x xs ih =>
    cases xs with
    | nil => exact List.chain'_singleton x
    | cons y ys =>
      simp only [List.tail_cons, List.zip_cons_cons, List.all_cons,
        Bool.and_eq_true] at h
      exact List.Chain'.cons h.1 (ih (by simpa using h.2))

theorem datesOfYear_chain (yt : YearType) :
    (datesOfYear yt).Chain' (fun a b => pdltB a b = true) := by
  cases yt <;> exact adjSorted_chain _ (by with_unfolding_all rfl)

theorem datesOfYear_pairwise (yt : YearType) :
    (datesOfYear yt).Pairwise (fun a b => pdltB a b = true) :=
  chain'_to_pairwise pdltB_trans _ (datesOfYear_chain yt)

theorem datesOfYear_length (yt : YearType) :
    (datesOfYear yt).length = (monthLengths yt).sum := by
  cases yt <;> exact (by with_unfolding_all rfl)

/-- Counting at-most the `i`-th element of a strictly increasing list
gives `i + 1`. -/
theorem countP_le_getElem (l : List PDate)
    (hp : l.Pairwise (fun a b => pdltB a b = true)) (i : ℕ) (hi : i < l.length) :
    l.countP (fun p => pdleB p l[i]) = i + 1 := by
  have hget : ∀ (j k : ℕ) (hj : j < l.length) (hk : k < l.length), j < k →
      pdltB l[j] l[k] = true := by
    intro j k hj hk hjk
    have := List.pairwise_iff_get.mp hp ⟨j, hj⟩ ⟨k, hk⟩ hjk
    simpa using this
  set d := l[i] with hd
  have hsplit : l = l.take i ++ d :: l.drop (i + 1) := by
    conv_lhs => rw [← List.take_append_drop i l]
    rw [List.drop_eq_getElem_cons hi]
  conv_lhs => rw [hsplit]
  rw [List.countP_append, List.countP_cons]
  have htake : (l.take i).countP (fun p => pdleB p d) = i := by
    have hall : ∀ p ∈ l.take i, pdleB p d = true := by
      intro p hpmem
      obtain ⟨j, hj, rfl⟩ := List.mem_iff_getElem.mp hpmem
      have hjl : j < l.length := by
        rw [List.length_take] at hj; omega
      have hji : j < i := by
        rw [List.length_take] at hj; omega
      have hgt : (l.take i)[j] = l[j] := List.getElem_take ..
      rw [hgt, hd]
      exact pdltB_le _ _ (hget j i hjl hi hji)
    rw [List.countP_eq_length.mpr hall, List.length_take]
    omega
  have hdrop : (l.drop (i + 1)).countP (fun p => pdleB p d) = 0 := by
    rw [List.countP_eq_zero]
    intro p hpmem
    obtain ⟨j, hj, rfl⟩ := List.mem_iff_getElem.mp hpmem
    have hjl : i + 1 + j < l.length := by
      rw [List.length_drop] at hj; omega
    have hgt : (l.drop (i + 1))[j] = l[i + 1 + j] := List.getElem_drop ..
    rw [hgt, hd]
    have hlt := hget i (i + 1 + j) hi hjl (by omega)
    simp [pdltB_not_ge _ _ hlt]
  rw [htake, hdrop, pdleB_refl]
  simp

/-- Counting at-least the `i`-th element of a strictly increasing list
gives `length - i`. -/
theorem countP_ge_getElem (l : List PDate)
    (hp : l.Pairwise (fun a b => pdltB a b = true)) (i : ℕ) (hi : i < l.length) :
    l.countP (fun p => pdleB l[i] p) = l.length - i := by
  have hget : ∀ (j k : ℕ) (hj : j < l.length) (hk : k < l.length), j < k →
      pdltB l[j] l[k] = true := by
    intro j k hj hk hjk
    have := List.pairwise_iff_get.mp hp ⟨j, hj⟩ ⟨k, hk⟩ hjk
    simpa using this
  set d := l[i] with hd
  have hsplit : l = l.take i ++ d :: l.drop (i + 1) := by
    conv_lhs => rw [← List.take_append_drop i l]
    rw [List.drop_eq_getElem_cons hi]
  conv_lhs => rw [hsplit]
  rw [List.countP_append, List.countP_cons]
  have htake : (l.take i).countP (fun p => pdleB d p) = 0 := by
    rw [List.countP_eq_zero]
    intro p hpmem
    obtain ⟨j, hj, rfl⟩ := List.mem_iff_getElem.mp hpmem
    have hjl : j < l.length := by
      rw [List.length_take] at hj; omega
    have hji : j < i := by
      rw [List.length_take] at hj; omega
    have hgt : (l.take i)[j] = l[j] := List.getElem_take ..
    rw [hgt, hd]
    have hlt := hget j i hjl hi hji
    simp [pdltB_not_ge _ _ hlt]
  have hdrop : (l.drop (i + 1)).countP (fun p => pdleB d p) =
      l.length - (i + 1) := by
    have hall : ∀ p ∈ l.drop (i + 1), pdleB d p = true := by
      intro p hpmem
      obtain ⟨j, hj, rfl⟩ := List.mem_iff_getElem.mp hpmem
      have hjl : i + 1 + j < l.length := by
        rw [List.length_drop] at hj; omega
      have hgt : (l.drop (i + 1))[j] = l[i + 1 + j] := List.getElem_drop ..
      rw [hgt, hd]
      exact pdltB_le _ _ (hget i (i + 1 + j) hi hjl (by omega))
    rw [List.countP_eq_length.mpr hall, List.length_drop]
  rw [htake, hdrop, pdleB_refl]
  simp
  omega

theorem dateAt_eq_getElem (yt : YearType) (i : ℕ) (hi : i < (datesOfYear yt).length) :
    dateAt yt i = (datesOfYear yt)[i] := List.getD_eq_getElem _ _ hi

theorem countLE_dateAt (yt : YearType) (i : ℕ) (hi : i < (datesOfYear yt).length) :
    countLE yt (dateAt yt i) = i + 1 := by
  rw [countLE, dateAt_eq_getElem yt i hi]
  exact countP_le_getElem _ (datesOfYear_pairwise yt) i hi

theorem countGE_dateAt (yt : YearType) (i : ℕ) (hi : i < (datesOfYear yt).length) :
    countGE yt (dateAt yt i) = (datesOfYear yt).length - i := by
  rw [countGE, dateAt_eq_getElem yt i hi]
  exact countP_ge_getElem _ (datesOfYear_pairwise yt) i hi

theorem datesOfYear_leap_length : (datesOfYear .leap).length = 366 := by
  with_unfolding_all rfl

theorem datesOfYear_nonleap_length : (datesOfYear .nonleap).length = 365 := by
  with_unfolding_all rfl

theorem datesOfYear_d360_length : (datesOfYear .d360).length = 360 := by
  with_unfolding_all rfl

/-- The leap year is the non-leap year with February 29 inserted after
its first 59 dates. -/
theorem datesOfYear_leap_split :
    datesOfYear .leap =
      (datesOfYear .nonleap).take 59 ++
        (⟨2, 29⟩ : PDate) :: (datesOfYear .nonleap).drop 59 := by
  with_unfolding_all rfl

theorem countP_leap_eq_nonleap (pr : PDate → Bool) :
    (datesOfYear .leap).countP pr =
      (datesOfYear .nonleap).countP pr + (if pr ⟨2, 29⟩ = true then 1 else 0) := by
  rw [datesOfYear_leap_split, List.countP_append, List.countP_cons]
  conv_rhs => rw [← List.take_append_drop 59 (datesOfYear .nonleap),
    List.countP_append]
  omega

theorem countP_leap_bounds (pr : PDate → Bool) :
    (datesOfYear .nonleap).countP pr ≤ (datesOfYear .leap).countP pr ∧
      (datesOfYear .leap).countP pr ≤ (datesOfYear .nonleap).countP pr + 1 := by
  have h := countP_leap_eq_nonleap pr
  split at h <;> omega

theorem countLE_of_leap_date (yt : YearType) (hyt : yt = .leap ∨ yt = .nonleap)
    (i : ℕ) (hi : i < 366) : countLE yt (dateAt .leap i) ≤ i + 1 := by
  have hleap : countLE .leap (dateAt .leap i) = i + 1 :=
    countLE_dateAt .leap i (by rw [datesOfYear_leap_length]; omega)
  rcases hyt with rfl | rfl
  · omega
  · have := countP_leap_bounds (fun p => pdleB p (dateAt .leap i))
    rw [countLE] at hleap
    rw [countLE]
    omega

theorem countLE_of_nonleap_date (yt : YearType) (hyt : yt = .leap ∨ yt = .nonleap)
    (i : ℕ) (hi : i < 365) : countLE yt (dateAt .nonleap i) ≤ i + 2 := by
  have hnl : countLE .nonleap (dateAt .nonleap i) = i + 1 :=
    countLE_dateAt .nonleap i (by rw [datesOfYear_nonleap_length]; omega)
  rcases hyt with rfl | rfl
  · have := countP_leap_bounds (fun p => pdleB p (dateAt .nonleap i))
    rw [countLE] at hnl ⊢
    omega
  · omega

theorem countLE_nonleap_self (i : ℕ) (hi : i < 365) :
    countLE .nonleap (dateAt .nonleap i) = i + 1 :=
  countLE_dateAt .nonleap i (by rw [datesOfYear_nonleap_length]; omega)

theorem countGE_of_leap_date (yt : YearType) (hyt : yt = .leap ∨ yt = .nonleap)
    (j : ℕ) (hj : j < 366) : countGE yt (dateAt .leap j) ≤ 366 - j := by
  have hleap : countGE .leap (dateAt .leap j) = 366 - j := by
    have := countGE_dateAt .leap j (by rw [datesOfYear_leap_length]; omega)
    rwa [datesOfYear_leap_length] at this
  rcases hyt with rfl | rfl
  · omega
  · have := countP_leap_bounds (fun p => pdleB (dateAt .leap j) p)
    rw [countGE] at hleap
    rw [countGE]
    omega

theorem countGE_of_nonleap_date (yt : YearType) (hyt : yt = .leap ∨ yt = .nonleap)
    (j : ℕ) (hj : j < 365) : countGE yt (dateAt .nonleap j) ≤ 366 - j := by
  have hnl : countGE .nonleap (dateAt .nonleap j) = 365 - j := by
    have := countGE_dateAt .nonleap j (by rw [datesOfYear_nonleap_length]; omega)
    rwa [datesOfYear_nonleap_length] at this
  rcases hyt with rfl | rfl
  · have := countP_leap_bounds (fun p => pdleB (dateAt .nonleap j) p)
    rw [countGE] at hnl ⊢
    omega
  · omega

theorem countGE_nonleap_self (j : ℕ) (hj : j < 365) :
    countGE .nonleap (dateAt .nonleap j) = 365 - j := by
  have := countGE_dateAt .nonleap j (by rw [datesOfYear_nonleap_length]; omega)
  rwa [datesOfYear_nonleap_length] at this

theorem dateFromYearOffset_succ (fuel : ℕ) (y k : ℤ) :
    dateFromYearOffset (fuel + 1) y k =
      if k < 0 then dateFromYearOffset fuel (y - 1) (k + (yearLenY (y - 1) : ℤ))
      else if k < (yearLenY y : ℤ) then dateAt (yearShape y) k.toNat
      else dateFromYearOffset fuel (y + 1) (k - (yearLenY y : ℤ)) := rfl

theorem pyMonthDay_in_year (y k : ℤ) (h0 : 0 ≤ k) (h1 : k < (yearLenY y : ℤ)) :
    pyMonthDay y k = dateAt (yearShape y) k.toNat := by
  rw [pyMonthDay, show (12000 : ℕ) = 11999 + 1 from rfl, dateFromYearOffset_succ,
    if_neg (by omega), if_pos h1]

theorem pyMonthDay_prev_year (y k : ℤ) (h0 : k < 0)
    (h1 : -(yearLenY (y - 1) : ℤ) ≤ k) :
    pyMonthDay y k = dateAt (yearShape (y - 1)) (k + (yearLenY (y - 1) : ℤ)).toNat := by
  rw [pyMonthDay, show (12000 : ℕ) = 11999 + 1 from rfl, dateFromYearOffset_succ,
    if_pos h0, show (11999 : ℕ) = 11998 + 1 from rfl, dateFromYearOffset_succ,
    if_neg (by omega), if_pos (by omega)]

theorem pyMonthDay_next_year (y k : ℤ) (h0 : (yearLenY y : ℤ) ≤ k)
    (h1 : k < (yearLenY y : ℤ) + (yearLenY (y + 1) : ℤ)) :
    pyMonthDay y k = dateAt (yearShape (y + 1)) (k - (yearLenY y : ℤ)).toNat := by
  rw [pyMonthDay, show (12000 : ℕ) = 11999 + 1 from rfl, dateFromYearOffset_succ,
    if_neg (by omega), if_neg (by omega), show (11999 : ℕ) = 11998 + 1 from rfl,
    dateFromYearOffset_succ, if_neg (by omega), if_pos (by omega)]

theorem datesOfYear_all_valid (yt : YearType) :
    ∀ p ∈ datesOfYear yt,
      (decide (1 ≤ p.month) && decide (p.month ≤ 12) &&
        decide (1 ≤ p.day) && decide (p.day ≤ 31)) = true := by
  rw [← List.all_eq_true]
  cases yt <;> exact (by with_unfolding_all rfl)

theorem dateAt_valid (yt : YearType) (i : ℕ) : pdValid (dateAt yt i) := by
  by_cases hi : i < (datesOfYear yt).length
  · rw [dateAt_eq_getElem yt i hi]
    have := datesOfYear_all_valid yt _ (List.getElem_mem hi)
    simp only [Bool.and_eq_true, decide_eq_true_eq] at this
    exact ⟨this.1.1.1, this.1.1.2, this.1.2, this.2⟩
  · rw [dateAt, List.getD_eq_default _ _ (by omega)]
    exact ⟨by norm_num, by norm_num, by norm_num, by norm_num⟩

theorem dateFromYearOffset_valid (fuel : ℕ) :
    ∀ (y k : ℤ), pdValid (dateFromYearOffset fuel y k) := by
  induction fuel with
  | zero =>
    intro y k
    show pdValid ⟨1, 1⟩
    refine ⟨by norm_num, by norm_num, by norm_num, by norm_num⟩
  | succ fuel ih =>
    intro y k
    rw [dateFromYearOffset_succ]
    by_cases h0 : k < 0
    · rw [if_pos h0]; exact ih _ _
    · rw [if_neg h0]
      by_cases h1 : k < (yearLenY y : ℤ)
      · rw [if_pos h1]; exact dateAt_valid _ _
      · rw [if_neg h1]; exact ih _ _

theorem pyMonthDay_valid (y k : ℤ) : pdValid (pyMonthDay y k) :=
  dateFromYearOffset_valid 12000 y k

theorem countP_or_le {α : Type} (l : List α) (p q : α → Bool) :
    l.countP (fun a => p a || q a) ≤ l.countP p + l.countP q := by
  induction l with
  | nil => simp
  | cons x xs ih =>
    rw [List.countP_cons, List.countP_cons, List.countP_cons]
    by_cases hp : p x <;> by_cases hq : q x <;> simp [hp, hq] <;> omega

/-- In the wrap branch, the selected set is bounded by the days up to
`end` plus the days from `begin`. -/
theorem wrapCount_le (yt : YearType) (b e ys ye : PDate) :
    (datesOfYear yt).countP
        (fun p => (pdleB ys p && pdleB p e) || (pdleB b p && pdleB p ye)) ≤
      countLE yt e + countGE yt b := by
  refine le_trans (countP_or_le _ _ _) ?_
  have h1 : (datesOfYear yt).countP (fun p => pdleB ys p && pdleB p e) ≤
      countLE yt e :=
    List.countP_mono_left (fun a _ ha => by
      rw [Bool.and_eq_true] at ha; exact ha.2)
  have h2 : (datesOfYear yt).countP (fun p => pdleB b p && pdleB p ye) ≤
      countGE yt b :=
    List.countP_mono_left (fun a _ ha => by
      rw [Bool.and_eq_true] at ha; exact ha.1)
  omega

theorem jan1_mem (yt : YearType) : (⟨1, 1⟩ : PDate) ∈ datesOfYear yt := by
  cases yt <;> exact of_decide_eq_true (by with_unfolding_all rfl)

/-- In the wrap branch the selection is never empty: January 1 always
lies in `[year_start, end]`. -/
theorem wrapCount_pos (yt : YearType) (b e ye : PDate)
    (he : 1 ≤ e.month) (he2 : e.month = 1 → 1 ≤ e.day) :
    0 < (datesOfYear yt).countP
        (fun p => (pdleB ⟨1, 1⟩ p && pdleB p e) || (pdleB b p && pdleB p ye)) := by
  rw [List.countP_pos_iff]
  refine ⟨⟨1, 1⟩, jan1_mem yt, ?_⟩
  have h2 : pdleB (⟨1, 1⟩ : PDate) e = true := by
    simp only [pdleB, Bool.or_eq_true, Bool.and_eq_true, decide_eq_true_eq]
    by_cases hm : e.month = 1
    · right; exact ⟨hm.symm, he2 hm⟩
    · left; omega
  simp [pdleB_refl, h2]

theorem countP_flatMap {α β : Type} (l : List α) (f : α → List β) (p : β → Bool) :
    (l.flatMap f).countP p = (l.map (fun a => (f a).countP p)).sum := by
  induction l with
  | nil => rfl
  | cons x xs ih => simp [List.flatMap_cons, List.countP_append, ih]

theorem countP_range_le_day (len : ℕ) (D : ℤ) :
    (List.range len).countP (fun (d : ℕ) => decide ((d : ℤ) + 1 ≤ D)) = min len D.toNat := by
  induction len with
  | zero => simp
  | succ n ih =>
    rw [List.range_succ, List.countP_append, ih]
    by_cases h : (n : ℤ) + 1 ≤ D
    · have : (List.countP (fun (d : ℕ) => decide ((d : ℤ) + 1 ≤ D)) [n]) = 1 := by
        simp [h]
      rw [this]
      omega
    · have : (List.countP (fun (d : ℕ) => decide ((d : ℤ) + 1 ≤ D)) [n]) = 0 := by
        simp [h]
      rw [this]
      omega

theorem countP_range_ge_day (len : ℕ) (D : ℤ) :
    (List.range len).countP (fun (d : ℕ) => decide (D ≤ (d : ℤ) + 1)) =
      len - min len (D - 1).toNat := by
  induction len with
  | zero => simp
  | succ n ih =>
    rw [List.range_succ, List.countP_append, ih]
    by_cases h : D ≤ (n : ℤ) + 1
    · have : (List.countP (fun (d : ℕ) => decide (D ≤ (d : ℤ) + 1)) [n]) = 1 := by
        simp [h]
      rw [this]
      omega
    · have : (List.countP (fun (d : ℕ) => decide (D ≤ (d : ℤ) + 1)) [n]) = 0 := by
        simp [h]
      rw [this]
      omega

theorem month_countP_le (mm M : ℕ) (D : ℤ) (len : ℕ) :
    ((List.range len).map (fun (d : ℕ) => (⟨mm + 1, (d : ℤ) + 1⟩ : PDate))).countP
        (fun p => pdleB p ⟨M, D⟩) =
      if mm + 1 < M then len else if mm + 1 = M then min len D.toNat else 0 := by
  rw [List.countP_map]
  by_cases h1 : mm + 1 < M
  · rw [if_pos h1]
    have hall : ∀ d ∈ List.range len,
        ((fun p => pdleB p ⟨M, D⟩) ∘ fun (d : ℕ) => (⟨mm + 1, (d : ℤ) + 1⟩ : PDate)) d
          = true := by
      intro d _
      simp [pdleB, h1]
    rw [List.countP_eq_length.mpr hall, List.length_range]
  · rw [if_neg h1]
    by_cases h2 : mm + 1 = M
    · rw [if_pos h2]
      rw [← countP_range_le_day len D]
      apply List.countP_congr
      intro d _
      simp [pdleB, h1, h2]
    · rw [if_neg h2]
      rw [List.countP_eq_zero]
      intro d _
      simp [pdleB]
      omega

theorem month_countP_ge (mm M : ℕ) (D : ℤ) (len : ℕ) :
    ((List.range len).map (fun (d : ℕ) => (⟨mm + 1, (d : ℤ) + 1⟩ : PDate))).countP
        (fun p => pdleB (⟨M, D⟩ : PDate) p) =
      if M < mm + 1 then len
      else if M = mm + 1 then len - min len (D - 1).toNat else 0 := by
  rw [List.countP_map]
  by_cases h1 : M < mm + 1
  · rw [if_pos h1]
    have hall : ∀ d ∈ List.range len,
        ((fun p => pdleB (⟨M, D⟩ : PDate) p) ∘ fun (d : ℕ) => (⟨mm + 1, (d : ℤ) + 1⟩ : PDate)) d
          = true := by
      intro d _
      simp [pdleB, h1]
    rw [List.countP_eq_length.mpr hall, List.length_range]
  · rw [if_neg h1]
    by_cases h2 : M = mm + 1
    · rw [if_pos h2]
      rw [← countP_range_ge_day len D]
      apply List.countP_congr
      intro d _
      simp [pdleB, h1, h2]
    · rw [if_neg h2]
      rw [List.countP_eq_zero]
      intro d _
      simp [pdleB]
      omega

theorem countLE_d360 (M : ℕ) (D : ℤ) (hM : 1 ≤ M) (hM13 : M ≤ 13) :
    countLE .d360 ⟨M, D⟩ =
      min (30 * (M - 1)) 360 + (if M ≤ 12 then min 30 D.toNat else 0) := by
  rw [countLE, datesOfYear, countP_flatMap]
  have hmap : (List.range 12).map
      (fun (m : ℕ) => ((List.range ((monthLengths .d360).getD m 0)).map
        (fun (d : ℕ) => (⟨m + 1, (d : ℤ) + 1⟩ : PDate))).countP
          (fun p => pdleB p ⟨M, D⟩)) =
      (List.range 12).map (fun (m : ℕ) =>
        if m + 1 < M then 30 else if m + 1 = M then min 30 D.toNat else 0) := by
    apply List.map_congr_left
    intro m hm
    rw [List.mem_range] at hm
    have hlen : (monthLengths .d360).getD m 0 = 30 := by
      interval_cases m <;> rfl
    rw [hlen, month_countP_le]
  rw [hmap]
  interval_cases M <;> simp [List.range_succ] <;> omega

theorem countGE_d360 (M : ℕ) (D : ℤ) (hM : 1 ≤ M) (hM13 : M ≤ 13) :
    countGE .d360 ⟨M, D⟩ =
      (if M ≤ 12 then 30 * (12 - M) + (30 - min 30 (D - 1).toNat) else 0) := by
  rw [countGE, datesOfYear, countP_flatMap]
  have hmap : (List.range 12).map
      (fun (m : ℕ) => ((List.range ((monthLengths .d360).getD m 0)).map
        (fun (d : ℕ) => (⟨m + 1, (d : ℤ) + 1⟩ : PDate))).countP
          (fun p => pdleB (⟨M, D⟩ : PDate) p)) =
      (List.range 12).map (fun (m : ℕ) =>
        if M < m + 1 then 30
        else if M = m + 1 then 30 - min 30 (D - 1).toNat else 0) := by
    apply List.map_congr_left
    intro m hm
    rw [List.mem_range] at hm
    have hlen : (monthLengths .d360).getD m 0 = 30 := by
      interval_cases m <;> rfl
    rw [hlen, month_countP_ge]
  rw [hmap]
  interval_cases M <;> simp [List.range_succ] <;> omega

theorem dateAt_month_mono (yt : YearType) (i j : ℕ) (hij : i ≤ j)
    (hj : j < (datesOfYear yt).length) :
    (dateAt yt i).month ≤ (dateAt yt j).month := by
  rcases Nat.eq_or_lt_of_le hij with rfl | hlt
  · exact le_refl _
  · have hi : i < (datesOfYear yt).length := by omega
    have := List.pairwise_iff_get.mp (datesOfYear_pairwise yt) ⟨i, hi⟩ ⟨j, hj⟩ hlt
    rw [dateAt_eq_getElem yt i hi, dateAt_eq_getElem yt j hj]
    exact pdltB_month_le _ _ (by simpa using this)

theorem yearShape_2000 : yearShape 2000 = .leap := by decide

theorem yearShape_1999 : yearShape 1999 = .nonleap := by decide

theorem yearShape_1998 : yearShape 1998 = .nonleap := by decide

theorem yearShape_2001 : yearShape 2001 = .nonleap := by decide

theorem yearLenY_2000 : yearLenY 2000 = 366 := by decide

theorem yearLenY_1999 : yearLenY 1999 = 365 := by decide

theorem yearLenY_1998 : yearLenY 1998 = 365 := by decide

theorem yearLenY_2001 : yearLenY 2001 = 365 := by decide

/-- Wrap-branch counting bound for the calendars using a leap
representative year (standard family and all_leap family). -/
theorem std_wrap_count (doy w : ℤ) (h0 : 0 ≤ doy) (h1 : doy ≤ 366) (hw : 1 ≤ w)
    (yt : YearType) (hyt : yt = .leap ∨ yt = .nonleap)
    (hwrap : (pyMonthDay 2000 (doy + w)).month < (pyMonthDay 2000 (doy - w)).month) :
    0 < (datesOfYear yt).countP
        (fun p => (pdleB ⟨1, 1⟩ p && pdleB p (pyMonthDay 2000 (doy + w))) ||
          (pdleB (pyMonthDay 2000 (doy - w)) p && pdleB p ⟨12, 31⟩)) ∧
    ((datesOfYear yt).countP
        (fun p => (pdleB ⟨1, 1⟩ p && pdleB p (pyMonthDay 2000 (doy + w))) ||
          (pdleB (pyMonthDay 2000 (doy - w)) p && pdleB p ⟨12, 31⟩)) : ℤ) ≤
      2 * w + 2 := by
  constructor
  · apply wrapCount_pos
    · exact (pyMonthDay_valid 2000 (doy + w)).1
    · intro _
      exact (pyMonthDay_valid 2000 (doy + w)).2.2.1
  · have hsum := wrapCount_le yt (pyMonthDay 2000 (doy - w))
      (pyMonthDay 2000 (doy + w)) ⟨1, 1⟩ ⟨12, 31⟩
    by_cases hbig : 183 ≤ w
    · have hcl : (datesOfYear yt).countP
          (fun p => (pdleB ⟨1, 1⟩ p && pdleB p (pyMonthDay 2000 (doy + w))) ||
            (pdleB (pyMonthDay 2000 (doy - w)) p && pdleB p ⟨12, 31⟩)) ≤
          (datesOfYear yt).length := List.countP_le_length _
      have h366 : (datesOfYear yt).length ≤ 366 := by
        rcases hyt with rfl | rfl
        · rw [datesOfYear_leap_length]
        · rw [datesOfYear_nonleap_length]; omega
      omega
    · push_neg at hbig
      by_cases hbneg : doy - w < 0
      · have hb : pyMonthDay 2000 (doy - w) =
            dateAt .nonleap (doy - w + 365).toNat := by
          have := pyMonthDay_prev_year 2000 (doy - w) hbneg
            (by rw [show (2000 : ℤ) - 1 = 1999 by norm_num, yearLenY_1999]; omega)
          rwa [show (2000 : ℤ) - 1 = 1999 by norm_num, yearShape_1999,
            yearLenY_1999] at this
        by_cases helt : doy + w < 366
        · have he : pyMonthDay 2000 (doy + w) = dateAt .leap (doy + w).toNat := by
            have := pyMonthDay_in_year 2000 (doy + w) (by omega)
              (by rw [yearLenY_2000]; omega)
            rwa [yearShape_2000] at this
          rw [hb, he] at hsum
          rw [hb, he]
          have hc1 := countLE_of_leap_date yt hyt (doy + w).toNat (by omega)
          have hc2 := countGE_of_nonleap_date yt hyt (doy - w + 365).toNat (by omega)
          omega
        · omega
      · push_neg at hbneg
        have hb : pyMonthDay 2000 (doy - w) = dateAt .leap (doy - w).toNat := by
          have := pyMonthDay_in_year 2000 (doy - w) (by omega)
            (by rw [yearLenY_2000]; omega)
          rwa [yearShape_2000] at this
        by_cases helt : doy + w < 366
        · exfalso
          have he : pyMonthDay 2000 (doy + w) = dateAt .leap (doy + w).toNat := by
            have := pyMonthDay_in_year 2000 (doy + w) (by omega)
              (by rw [yearLenY_2000]; omega)
            rwa [yearShape_2000] at this
          rw [hb, he] at hwrap
          have := dateAt_month_mono .leap (doy - w).toNat (doy + w).toNat
            (by omega) (by rw [datesOfYear_leap_length]; omega)
          omega
        · have he : pyMonthDay 2000 (doy + w) =
              dateAt .nonleap (doy + w - 366).toNat := by
            have := pyMonthDay_next_year 2000 (doy + w)
              (by rw [yearLenY_2000]; omega)
              (by rw [yearLenY_2000, show (2000 : ℤ) + 1 = 2001 by norm_num,
                yearLenY_2001]; omega)
            rwa [show (2000 : ℤ) + 1 = 2001 by norm_num, yearShape_2001,
              yearLenY_2000] at this
          rw [hb, he] at hsum
          rw [hb, he]
          have hc1 := countLE_of_nonleap_date yt hyt (doy + w - 366).toNat (by omega)
          have hc2 := countGE_of_leap_date yt hyt (doy - w).toNat (by omega)
          omega

/-- Wrap-branch counting bound for the calendars using a non-leap
representative year (noleap and 365_day). -/
theorem noleap_wrap_count (doy w : ℤ) (h0 : 0 ≤ doy) (h1 : doy ≤ 365) (hw : 1 ≤ w)
    (hwrap : (pyMonthDay 1999 (doy + w)).month < (pyMonthDay 1999 (doy - w)).month) :
    0 < (datesOfYear .nonleap).countP
        (fun p => (pdleB ⟨1, 1⟩ p && pdleB p (pyMonthDay 1999 (doy + w))) ||
          (pdleB (pyMonthDay 1999 (doy - w)) p && pdleB p ⟨12, 31⟩)) ∧
    ((datesOfYear .nonleap).countP
        (fun p => (pdleB ⟨1, 1⟩ p && pdleB p (pyMonthDay 1999 (doy + w))) ||
          (pdleB (pyMonthDay 1999 (doy - w)) p && pdleB p ⟨12, 31⟩)) : ℤ) ≤
      2 * w + 2 := by
  constructor
  · apply wrapCount_pos
    · exact (pyMonthDay_valid 1999 (doy + w)).1
    · intro _
      exact (pyMonthDay_valid 1999 (doy + w)).2.2.1
  · have hsum := wrapCount_le .nonleap (pyMonthDay 1999 (doy - w))
      (pyMonthDay 1999 (doy + w)) ⟨1, 1⟩ ⟨12, 31⟩
    by_cases hbig : 183 ≤ w
    · have hcl : (datesOfYear .nonleap).countP
          (fun p => (pdleB ⟨1, 1⟩ p && pdleB p (pyMonthDay 1999 (doy + w))) ||
            (pdleB (pyMonthDay 1999 (doy - w)) p && pdleB p ⟨12, 31⟩)) ≤
          (datesOfYear .nonleap).length := List.countP_le_length _
      have h365 : (datesOfYear .nonleap).length = 365 := datesOfYear_nonleap_length
      omega
    · push_neg at hbig
      by_cases hbneg : doy - w < 0
      · have hb : pyMonthDay 1999 (doy - w) =
            dateAt .nonleap (doy - w + 365).toNat := by
          have := pyMonthDay_prev_year 1999 (doy - w) hbneg
            (by rw [show (1999 : ℤ) - 1 = 1998 by norm_num, yearLenY_1998]; omega)
          rwa [show (1999 : ℤ) - 1 = 1998 by norm_num, yearShape_1998,
            yearLenY_1998] at this
        by_cases helt : doy + w < 365
        · have he : pyMonthDay 1999 (doy + w) =
              dateAt .nonleap (doy + w).toNat := by
            have := pyMonthDay_in_year 1999 (doy + w) (by omega)
              (by rw [yearLenY_1999]; omega)
            rwa [yearShape_1999] at this
          rw [hb, he] at hsum
          rw [hb, he]
          have hc1 : countLE .nonleap (dateAt .nonleap (doy + w).toNat) =
              (doy + w).toNat + 1 := countLE_nonleap_self _ (by omega)
          have hc2 : countGE .nonleap (dateAt .nonleap (doy - w + 365).toNat) =
              365 - (doy - w + 365).toNat := countGE_nonleap_self _ (by omega)
          omega
        · omega
      · push_neg at hbneg
        have hb : pyMonthDay 1999 (doy - w) = dateAt .nonleap (doy - w).toNat := by
          have := pyMonthDay_in_year 1999 (doy - w) (by omega)
            (by rw [yearLenY_1999]; omega)
          rwa [yearShape_1999] at this
        by_cases helt : doy + w < 365
        · exfalso
          have he : pyMonthDay 1999 (doy + w) =
              dateAt .nonleap (doy + w).toNat := by
            have := pyMonthDay_in_year 1999 (doy + w) (by omega)
              (by rw [yearLenY_1999]; omega)
            rwa [yearShape_1999] at this
          rw [hb, he] at hwrap
          have := dateAt_month_mono .nonleap (doy - w).toNat (doy + w).toNat
            (by omega) (by rw [datesOfYear_nonleap_length]; omega)
          omega
        · have he : pyMonthDay 1999 (doy + w) =
              dateAt .leap (doy + w - 365).toNat := by
            have := pyMonthDay_next_year 1999 (doy + w)
              (by rw [yearLenY_1999]; omega)
              (by rw [yearLenY_1999, show (1999 : ℤ) + 1 = 2000 by norm_num,
                yearLenY_2000]; omega)
            rwa [show (1999 : ℤ) + 1 = 2000 by norm_num, yearShape_2000,
              yearLenY_1999] at this
          rw [hb, he] at hsum
          rw [hb, he]
          have hc1 := countLE_of_leap_date .nonleap (Or.inr rfl)
            (doy + w - 365).toNat (by omega)
          have hc2 : countGE .nonleap (dateAt .nonleap (doy - w).toNat) =
              365 - (doy - w).toNat := countGE_nonleap_self _ (by omega)
          omega

/-- Wrap-branch counting bound for the 360-day calendar. -/
theorem d360_wrap_count (doy w : ℤ) (h0 : 0 ≤ doy) (h1 : doy ≤ 360) (hw : 1 ≤ w)
    (b e : PDate)
    (hb : b = if 1 ≤ doy % 30 + 1 - w then
        (⟨(doy / 30 + 1).toNat, doy % 30 + 1 - w⟩ : PDate)
      else ⟨((doy / 30 + 1 - 2) % 12 + 1).toNat, doy % 30 + 1 - w + 30⟩)
    (he : e = if doy % 30 + 1 + w ≤ 30 then
        (⟨(doy / 30 + 1).toNat, doy % 30 + 1 + w⟩ : PDate)
      else ⟨((doy / 30 + 1) % 12 + 1).toNat, doy % 30 + 1 + w - 30⟩)
    (hwrap : e.month < b.month) :
    0 < (datesOfYear .d360).countP
        (fun p => (pdleB ⟨1, 1⟩ p && pdleB p e) || (pdleB b p && pdleB p ⟨12, 30⟩)) ∧
    ((datesOfYear .d360).countP
        (fun p => (pdleB ⟨1, 1⟩ p && pdleB p e) ||
          (pdleB b p && pdleB p ⟨12, 30⟩)) : ℤ) ≤ 2 * w + 2 := by
  have hdiv0 : 0 ≤ doy / 30 := by omega
  have hdiv12 : doy / 30 ≤ 12 := by omega
  have hmod : 0 ≤ doy % 30 ∧ doy % 30 < 30 := ⟨Int.emod_nonneg doy (by norm_num),
    Int.emod_lt_of_pos doy (by norm_num)⟩
  constructor
  · apply wrapCount_pos
    · by_cases hc : doy % 30 + 1 + w ≤ 30
      · rw [he, if_pos hc]
        show 1 ≤ (doy / 30 + 1).toNat
        omega
      · rw [he, if_neg hc]
        show 1 ≤ ((doy / 30 + 1) % 12 + 1).toNat
        omega
    · intro _
      by_cases hc : doy % 30 + 1 + w ≤ 30
      · rw [he, if_pos hc]
        show 1 ≤ doy % 30 + 1 + w
        omega
      · rw [he, if_neg hc]
        show 1 ≤ doy % 30 + 1 + w - 30
        omega
  · have hsum := wrapCount_le .d360 b e ⟨1, 1⟩ ⟨12, 30⟩
    by_cases hcb : 1 ≤ doy % 30 + 1 - w
    · rw [hb, if_pos hcb] at hwrap hsum ⊢
      by_cases hce : doy % 30 + 1 + w ≤ 30
      · rw [he, if_pos hce] at hwrap hsum ⊢
        exfalso
        have hwrap2 : (doy / 30 + 1).toNat < (doy / 30 + 1).toNat := hwrap
        omega
      · rw [he, if_neg hce] at hwrap hsum ⊢
        have hwrap2 : ((doy / 30 + 1) % 12 + 1).toNat < (doy / 30 + 1).toNat := hwrap
        have hLE := countLE_d360 ((doy / 30 + 1) % 12 + 1).toNat
          (doy % 30 + 1 + w - 30) (by omega) (by omega)
        have hGE := countGE_d360 (doy / 30 + 1).toNat (doy % 30 + 1 - w)
          (by omega) (by omega)
        split at hLE <;> split at hGE <;> omega
    · rw [hb, if_neg hcb] at hwrap hsum ⊢
      by_cases hce : doy % 30 + 1 + w ≤ 30
      · rw [he, if_pos hce] at hwrap hsum ⊢
        have hwrap2 : (doy / 30 + 1).toNat <
            ((doy / 30 + 1 - 2) % 12 + 1).toNat := hwrap
        have hLE := countLE_d360 (doy / 30 + 1).toNat (doy % 30 + 1 + w)
          (by omega) (by omega)
        have hGE := countGE_d360 ((doy / 30 + 1 - 2) % 12 + 1).toNat
          (doy % 30 + 1 - w + 30) (by omega) (by omega)
        split at hLE <;> split at hGE <;> omega
      · rw [he, if_neg hce] at hwrap hsum ⊢
        have hwrap2 : ((doy / 30 + 1) % 12 + 1).toNat <
            ((doy / 30 + 1 - 2) % 12 + 1).toNat := hwrap
        have hLE := countLE_d360 ((doy / 30 + 1) % 12 + 1).toNat
          (doy % 30 + 1 + w - 30) (by omega) (by omega)
        have hGE := countGE_d360 ((doy / 30 + 1 - 2) % 12 + 1).toNat
          (doy % 30 + 1 - w + 30) (by omega) (by omega)
        split at hLE <;> split at hGE <;> omega

/-- C6 (amended): for every supported calendar, day-of-year within the
calendar's year, and window at least 1, whenever the computed begin
month exceeds the end month the window predicate equals the union of
the two wrap sub-intervals `[year_start, end]` and `[begin, year_end]`,
and the per-year selected set is never empty and holds at most
`2*window + 2` days (the bound `2*window + 1` claimed by the spec can
be exceeded by exactly one day on leap data years, see the
counterexample). -/
theorem generate_day_constraint_with_window_wrap
    (calendar : String) (day_of_year window : ℤ)
    (hdoy0 : 0 ≤ day_of_year)
    (hdoy1 : day_of_year ≤ (calDaysInYear calendar : ℤ))
    (hw : 1 ≤ window)
    (mid b e ys ye : PDate)
    (hok : dayWindowBounds day_of_year window calendar =
      Except.ok (mid, b, e, ys, ye))
    (hwrap : e.month < b.month) :
    (∀ p : PDate, windowConstraintB b e ys ye p =
      ((pdleB ys p && pdleB p e) || (pdleB b p && pdleB p ye))) ∧
    ∀ yt ∈ dataYearTypes calendar,
      0 < (datesOfYear yt).countP (windowConstraintB b e ys ye) ∧
      ((datesOfYear yt).countP (windowConstraintB b e ys ye) : ℤ) ≤
        2 * window + 2 := by
  have hshape : ∀ yt, (datesOfYear yt).countP (windowConstraintB b e ys ye) =
      (datesOfYear yt).countP
        (fun p => (pdleB ys p && pdleB p e) || (pdleB b p && pdleB p ye)) := by
    intro yt
    apply List.countP_congr
    intro p _
    rw [windowConstraintB, if_neg (by omega)]
  refine ⟨fun p => by rw [windowConstraintB, if_neg (by omega)], ?_⟩
  intro yt hyt
  unfold dayWindowBounds at hok
  by_cases hc1 : calendar ∈ (["standard", "gregorian", "proleptic_gregorian",
      "all_leap", "366_day"] : List String)
  · rw [if_pos hc1] at hok
    have hdays : calDaysInYear calendar = 366 := by
      rw [calDaysInYear, if_pos hc1]
    simp only [Except.ok.injEq, Prod.mk.injEq] at hok
    obtain ⟨hmid, hb, he, hys, hye⟩ := hok
    subst hb he hys hye
    have hytLN : yt = YearType.leap ∨ yt = YearType.nonleap := by
      rw [dataYearTypes] at hyt
      by_cases h3 : calendar ∈ (["standard", "gregorian",
          "proleptic_gregorian"] : List String)
      · rw [if_pos h3] at hyt
        simp only [List.mem_cons, List.not_mem_nil, or_false,
          List.mem_singleton] at hyt
        tauto
      · have h4 : calendar ∈ (["all_leap", "366_day"] : List String) := by
          simp only [List.mem_cons, List.not_mem_nil, or_false] at hc1 h3 ⊢
          tauto
        rw [if_neg h3, if_pos h4] at hyt
        simp only [List.mem_singleton] at hyt
        left
        exact hyt
    rw [hshape]
    exact std_wrap_count day_of_year window hdoy0 (by omega) hw yt hytLN hwrap
  · rw [if_neg hc1] at hok
    by_cases hc2 : calendar ∈ (["noleap", "365_day"] : List String)
    · rw [if_pos hc2] at hok
      have hdays : calDaysInYear calendar = 365 := by
        rw [calDaysInYear, if_neg hc1, if_pos hc2]
      simp only [Except.ok.injEq, Prod.mk.injEq] at hok
      obtain ⟨hmid, hb, he, hys, hye⟩ := hok
      subst hb he hys hye
      have hytN : yt = YearType.nonleap := by
        rw [dataYearTypes] at hyt
        have h3 : calendar ∉ (["standard", "gregorian",
            "proleptic_gregorian"] : List String) := by
          simp only [List.mem_cons, List.not_mem_nil, or_false] at hc1 hc2 ⊢
          tauto
        have h4 : calendar ∉ (["all_leap", "366_day"] : List String) := by
          simp only [List.mem_cons, List.not_mem_nil, or_false] at hc1 hc2 ⊢
          tauto
        rw [if_neg h3, if_neg h4, if_pos hc2] at hyt
        simp only [List.mem_singleton] at hyt
        exact hyt
      subst hytN
      rw [hshape]
      exact noleap_wrap_count day_of_year window hdoy0 (by omega) hw hwrap
    · rw [if_neg hc2] at hok
      by_cases hc3 : calendar = ("360_day")
      · rw [if_pos hc3] at hok
        have hdays : calDaysInYear calendar = 360 := by
          rw [calDaysInYear, if_neg hc1, if_neg hc2, if_pos hc3]
        simp only [Except.ok.injEq, Prod.mk.injEq] at hok
        obtain ⟨hmid, hb, he, hys, hye⟩ := hok
        have hytD : yt = YearType.d360 := by
          rw [dataYearTypes] at hyt
          have h3 : calendar ∉ (["standard", "gregorian",
              "proleptic_gregorian"] : List String) := by
            simp only [List.mem_cons, List.not_mem_nil, or_false] at hc1 ⊢
            tauto
          have h4 : calendar ∉ (["all_leap", "366_day"] : List String) := by
            simp only [List.mem_cons, List.not_mem_nil, or_false] at hc1 ⊢
            tauto
          rw [if_neg h3, if_neg h4, if_neg hc2, if_pos hc3] at hyt
          simp only [List.mem_singleton] at hyt
          exact hyt
        subst hytD
        subst hys hye
        rw [hshape]
        exact d360_wrap_count day_of_year window hdoy0 (by omega) hw b e
          hb.symm he.symm hwrap
      · rw [if_neg hc3] at hok
        simp at hok

/-- C6 (counterexample to the claim as stated): for the standard
calendar, `day_of_year = 365` and `window = 60` produce the wrap branch
(`begin = Nov 1`, `end = Mar 1`), and a leap data year selects 122 days,
exceeding `2*window + 1 = 121`; the claim's hypotheses (supported
calendar, day near days-in-year, positive window) all hold. -/
theorem generate_day_constraint_window_counterexample :
    dayWindowBounds 365 60 ("standard") =
      Except.ok (⟨12, 31⟩, ⟨11, 1⟩, ⟨3, 1⟩, ⟨1, 1⟩, ⟨12, 31⟩) ∧
    (⟨3, 1⟩ : PDate).month < (⟨11, 1⟩ : PDate).month ∧
    YearType.leap ∈ dataYearTypes ("standard") ∧
    (365 : ℤ) ≤ (calDaysInYear ("standard") : ℤ) ∧
    2 * 60 + 1 <
      (datesOfYear .leap).countP
        (windowConstraintB ⟨11, 1⟩ ⟨3, 1⟩ ⟨1, 1⟩ ⟨12, 31⟩) := by
  refine ⟨?_, ?_, ?_, ?_, ?_⟩
  · with_unfolding_all rfl
  · decide
  · exact of_decide_eq_true (by with_unfolding_all rfl)
  · exact of_decide_eq_true (by with_unfolding_all rfl)
  · exact of_decide_eq_true (by with_unfolding_all rfl)

/-- Witness for `generate_day_constraint_with_window_wrap`: the window
around day 0 of the standard calendar with window 1 wraps and selects a
non-empty set of the leap year. -/
theorem generate_day_constraint_with_window_wrap_witness :
    0 < (datesOfYear .leap).countP
      (windowConstraintB ⟨12, 31⟩ ⟨1, 2⟩ ⟨1, 1⟩ ⟨12, 31⟩) :=
  ((generate_day_constraint_with_window_wrap ("standard") 0 1
    (by norm_num)
    (of_decide_eq_true (by with_unfolding_all rfl))
    (by norm_num)
    ⟨1, 1⟩ ⟨12, 31⟩ ⟨1, 2⟩ ⟨1, 1⟩ ⟨12, 31⟩
    (by with_unfolding_all rfl)
    (by decide)).2 .leap
    (of_decide_eq_true (by with_unfolding_all rfl))).1

theorem feb29_count_leap :
    (datesOfYear .leap).countP (dayMatchB ⟨2, 29⟩) = 1 := by
  with_unfolding_all rfl

theorem feb29_count_nonleap :
    (datesOfYear .nonleap).countP (dayMatchB ⟨2, 29⟩) = 0 := by
  with_unfolding_all rfl

/-- C7: the exact-day constraint produced by
`generate_day_constraint_with_window(59, 1, 'standard')` is February 29,
and selecting it from a daily series covering 1951 + 100 years returns
exactly 25 matches -- one per leap year of the span. -/
theorem test_leap_year_model :
    dayWindowBounds 59 1 ("standard") =
      Except.ok (⟨2, 29⟩, ⟨2, 28⟩, ⟨3, 1⟩, ⟨1, 1⟩, ⟨12, 31⟩) ∧
    test_series_dates.countP (dayMatchB ⟨2, 29⟩) = 25 := by
  constructor
  · with_unfolding_all rfl
  · rw [test_series_dates, countP_flatMap]
    have hcong : (List.range 100).map
        (fun (i : ℕ) => (datesOfYear (yearShape (1951 + (i : ℤ)))).countP
          (dayMatchB ⟨2, 29⟩)) =
        (List.range 100).map
          (fun (i : ℕ) => if isLeapYear (1951 + (i : ℤ)) then 1 else 0) := by
      apply List.map_congr_left
      intro i _
      rw [yearShape]
      by_cases hl : isLeapYear (1951 + (i : ℤ))
      · rw [if_pos hl, if_pos hl, feb29_count_leap]
      · rw [if_neg hl, if_neg hl, feb29_count_nonleap]
    rw [hcong]
    with_unfolding_all rfl

end PyCat
